import Mathlib

/-!
# librerest: the search relay, the domain gate and the image proxy

A shallow embedding of `main.go` (package `main`) together with the parts of the Go
standard library (`net/url`, `strings`, `unicode/utf8`, `unicode/utf16`, `encoding/json`)
and of gin that the handlers call, written after the sources of Go 1.22.

* A Go `string` is a sequence of bytes, so it is a list of `Fin 256`; a loop over an
  index becomes a recursion over the list, or over a counter that the length bounds.
* What lies outside the process (the environment, `http.NewRequest`, the HTTP client)
  is a parameter, the `World`; a handler returns what it wrote to the context together
  with the outbound calls it made.
* The definitions come first, the theorems follow, grouped by the part of the program
  they are about.
-/

namespace Librerest

deriving instance DecidableEq for Except

/-! ## Go strings -/

/-- A Go `byte`. -/
abbrev Byte := Fin 256

/-- A Go `string`: an immutable sequence of bytes. -/
abbrev Str := List Byte

/-- The byte of an ASCII character constant such as `'a'` in Go source. -/
def ch (c : Char) : Byte := Fin.ofNat c.toNat

/-- The function `utf8.EncodeRune`, for a code point given as a natural number: the
masks and shifts of the Go source are written as `%`, `/` and `+`. -/
def encodeRune (r : Nat) : Str :=
  if r < 0x80 then [Fin.ofNat r]
  else if r < 0x800 then [Fin.ofNat (0xC0 + r / 64), Fin.ofNat (0x80 + r % 64)]
  else if 0x10FFFF < r ∨ (0xD800 ≤ r ∧ r ≤ 0xDFFF) then [0xEF, 0xBF, 0xBD]
  else if r < 0x10000 then
    [Fin.ofNat (0xE0 + r / 4096), Fin.ofNat (0x80 + r / 64 % 64), Fin.ofNat (0x80 + r % 64)]
  else
    [Fin.ofNat (0xF0 + r / 262144), Fin.ofNat (0x80 + r / 4096 % 64),
      Fin.ofNat (0x80 + r / 64 % 64), Fin.ofNat (0x80 + r % 64)]

/-- The bytes of a Go string literal: Go source text is UTF-8. -/
def lit (s : String) : Str := s.toList.flatMap fun c => encodeRune c.toNat

/-- The function `strings.HasPrefix`. -/
def HasPrefix : Str → Str → Bool
  | _, [] => true
  | [], _ :: _ => false
  | a :: s, b :: p => a == b && HasPrefix s p

/-- The function `strings.HasSuffix`:
`len(s) >= len(suffix) && s[len(s)-len(suffix):] == suffix`. -/
def HasSuffix (s suffix : Str) : Bool :=
  decide (suffix.length ≤ s.length) && s.drop (s.length - suffix.length) == suffix

/-- The function `strings.Cut`: the text before and after the first instance of `sep`,
and whether `sep` was found. -/
def Cut : Str → Str → Str × Str × Bool
  | [], sep => if sep = [] then ([], [], true) else ([], [], false)
  | c :: s, sep =>
    if HasPrefix (c :: s) sep then ([], (c :: s).drop sep.length, true)
    else
      let r := Cut s sep
      if r.2.2 then (c :: r.1, r.2.1, true) else (c :: s, [], false)

/-- The function `strings.Contains`. -/
def Contains (s sub : Str) : Bool := (Cut s sub).2.2

/-- The function `strings.Count` for a separator of one byte. -/
def CountByte (s : Str) (c : Byte) : Nat := s.count c

/-! ## `net/url`: escaping -/

/-- The type `encoding` of `net/url`: which part of a URL is being escaped. -/
inductive encoding where
  | encodePath
  | encodePathSegment
  | encodeHost
  | encodeZone
  | encodeUserPassword
  | encodeQueryComponent
  | encodeFragment
  deriving DecidableEq, Repr

open encoding

/-- The errors of `net/url` (`EscapeError`, `InvalidHostError`, and the `errors.New`
values, by their message). -/
inductive UrlError where
  | EscapeError (s : Str)
  | InvalidHostError (s : Str)
  | other (msg : String)
  deriving DecidableEq, Repr

/-- The function `ishex` of `net/url`. -/
def ishex (c : Byte) : Bool :=
  (ch '0' ≤ c && c ≤ ch '9') || (ch 'a' ≤ c && c ≤ ch 'f') || (ch 'A' ≤ c && c ≤ ch 'F')

/-- The function `unhex` of `net/url`. -/
def unhex (c : Byte) : Byte :=
  if ch '0' ≤ c ∧ c ≤ ch '9' then c - ch '0'
  else if ch 'a' ≤ c ∧ c ≤ ch 'f' then c - ch 'a' + 10
  else if ch 'A' ≤ c ∧ c ≤ ch 'F' then c - ch 'A' + 10
  else 0

/-- The table `upperhex` of `net/url`, indexed by a nibble. -/
def upperhex (n : Nat) : Byte := (lit "0123456789ABCDEF").getD n 0

/-- The function `shouldEscape` of `net/url`. -/
def shouldEscape (c : Byte) (mode : encoding) : Bool :=
  if (ch 'a' ≤ c ∧ c ≤ ch 'z') ∨ (ch 'A' ≤ c ∧ c ≤ ch 'Z') ∨ (ch '0' ≤ c ∧ c ≤ ch '9') then
    false
  else if (mode = encodeHost ∨ mode = encodeZone) ∧ c ∈ lit "!$&'()*+,;=:[]<>\"" then
    false
  else if c ∈ lit "-_.~" then
    false
  else if c ∈ lit "$&+,/:;=?@" ∧ mode = encodePath then
    c == ch '?'
  else if c ∈ lit "$&+,/:;=?@" ∧ mode = encodePathSegment then
    c == ch '/' || c == ch ';' || c == ch ',' || c == ch '?'
  else if c ∈ lit "$&+,/:;=?@" ∧ mode = encodeUserPassword then
    c == ch '@' || c == ch '/' || c == ch '?' || c == ch ':'
  else if c ∈ lit "$&+,/:;=?@" ∧ mode = encodeQueryComponent then
    true
  else if c ∈ lit "$&+,/:;=?@" ∧ mode = encodeFragment then
    false
  else if mode = encodeFragment ∧ c ∈ lit "!()*" then
    false
  else
    true

/-- The function `escape` of `net/url`.  The source first counts what has to be escaped
and returns `s` itself when nothing has; that is what the loop below produces in that
case, so only the loop is kept. -/
def escape (s : Str) (mode : encoding) : Str :=
  s.flatMap fun c =>
    if c = ch ' ' ∧ mode = encodeQueryComponent then [ch '+']
    else if shouldEscape c mode then [ch '%', upperhex (c.val / 16), upperhex (c.val % 16)]
    else [c]

/-- The first loop of `unescape` of `net/url`: it checks that every `%` starts a
well-formed escape and that the bytes are allowed in `mode`, and returns the first
error. -/
def unescapeCheck (mode : encoding) : Str → Except UrlError Unit
  | [] => .ok ()
  | c :: rest =>
    if c = ch '%' then
      match rest with
      | h1 :: h2 :: rest2 =>
        if !ishex h1 || !ishex h2 then .error (.EscapeError [c, h1, h2])
        else if mode = encodeHost ∧ unhex h1 < 8 ∧ [c, h1, h2] ≠ lit "%25" then
          .error (.EscapeError [c, h1, h2])
        else if mode = encodeZone ∧ [c, h1, h2] ≠ lit "%25" ∧
            unhex h1 * 16 + unhex h2 ≠ ch ' ' ∧
            shouldEscape (unhex h1 * 16 + unhex h2) encodeHost then
          .error (.EscapeError [c, h1, h2])
        else unescapeCheck mode rest2
      | _ => .error (.EscapeError ((c :: rest).take 3))
    else if c = ch '+' then unescapeCheck mode rest
    else if (mode = encodeHost ∨ mode = encodeZone) ∧ c < 0x80 ∧ shouldEscape c encodeHost then
      .error (.InvalidHostError [c])
    else unescapeCheck mode rest

/-- The second loop of `unescape` of `net/url`, run on a string that passed the check:
it replaces each `%XX` by its byte and, in a query component, each `+` by a space. -/
def unescapeWrite (mode : encoding) : Str → Str
  | [] => []
  | c :: rest =>
    if c = ch '%' then
      match rest with
      | h1 :: h2 :: rest2 => (unhex h1 * 16 + unhex h2) :: unescapeWrite mode rest2
      | _ => []
    else if c = ch '+' then
      (if mode = encodeQueryComponent then ch ' ' else ch '+') :: unescapeWrite mode rest
    else c :: unescapeWrite mode rest

/-- The function `unescape` of `net/url`.  The source returns `s` itself when it holds
no `%` and no `+` to replace, which is what the second loop produces then. -/
def unescape (s : Str) (mode : encoding) : Except UrlError Str :=
  match unescapeCheck mode s with
  | .error e => .error e
  | .ok () => .ok (unescapeWrite mode s)

/-- The function `url.QueryEscape`. -/
def QueryEscape (s : Str) : Str := escape s encodeQueryComponent

/-- The function `url.QueryUnescape`. -/
def QueryUnescape (s : Str) : Except UrlError Str := unescape s encodeQueryComponent

/-! ## `net/url`: parsing -/

/-- The function `strings.Index`: the offset of the first instance of `sep`. -/
def Index : Str → Str → Option Nat
  | [], sep => if sep = [] then some 0 else none
  | c :: s, sep =>
    if HasPrefix (c :: s) sep then some 0
    else (Index s sep).map (· + 1)

/-- The function `strings.LastIndex` for a separator of one byte. -/
def LastIndexByte : Str → Byte → Option Nat
  | [], _ => none
  | a :: s, c =>
    match LastIndexByte s c with
    | some i => some (i + 1)
    | none => if a = c then some 0 else none

/-- The function `strings.ToLower` on the bytes of a scheme, which `getScheme` has
checked to be ASCII letters, digits, `+`, `-` and `.`. -/
def ToLower (s : Str) : Str :=
  s.map fun c => if ch 'A' ≤ c ∧ c ≤ ch 'Z' then c + 32 else c

/-- The type `url.Userinfo`. -/
structure Userinfo where
  username : Str
  password : Str
  passwordSet : Bool
  deriving DecidableEq, Repr

/-- The type `url.URL`. -/
structure URL where
  Scheme : Str := []
  Opaque : Str := []
  User : Option Userinfo := none
  Host : Str := []
  Path : Str := []
  RawPath : Str := []
  OmitHost : Bool := false
  ForceQuery : Bool := false
  RawQuery : Str := []
  Fragment : Str := []
  RawFragment : Str := []
  deriving DecidableEq, Repr

/-- The function `stringContainsCTLByte` of `net/url`. -/
def stringContainsCTLByte (s : Str) : Bool := s.any fun b => b < ch ' ' || b == 0x7f

/-- The loop of `getScheme` of `net/url`, at offset `i` with `pre` the bytes before it
(so `i = pre.length`). -/
def getSchemeLoop (rawURL : Str) : Nat → Str → Str → Except UrlError (Str × Str)
  | _, _, [] => .ok ([], rawURL)
  | i, pre, c :: rest =>
    if (ch 'a' ≤ c ∧ c ≤ ch 'z') ∨ (ch 'A' ≤ c ∧ c ≤ ch 'Z') then
      getSchemeLoop rawURL (i + 1) (pre ++ [c]) rest
    else if (ch '0' ≤ c ∧ c ≤ ch '9') ∨ c = ch '+' ∨ c = ch '-' ∨ c = ch '.' then
      if i = 0 then .ok ([], rawURL) else getSchemeLoop rawURL (i + 1) (pre ++ [c]) rest
    else if c = ch ':' then
      if i = 0 then .error (.other "missing protocol scheme") else .ok (pre, rest)
    else .ok ([], rawURL)

/-- The function `getScheme` of `net/url`: the scheme and what follows its colon. -/
def getScheme (rawURL : Str) : Except UrlError (Str × Str) := getSchemeLoop rawURL 0 [] rawURL

/-- The function `validOptionalPort` of `net/url`. -/
def validOptionalPort : Str → Bool
  | [] => true
  | c :: rest => c == ch ':' && rest.all fun b => !(b < ch '0' || b > ch '9')

/-- The function `validUserinfo` of `net/url`.  The source ranges over runes; a byte of
`0x80` or more belongs to a rune outside ASCII (or to an invalid one), which the
`default` branch rejects, as the test on the byte does here. -/
def validUserinfo (s : Str) : Bool :=
  s.all fun r =>
    (ch 'A' ≤ r && r ≤ ch 'Z') || (ch 'a' ≤ r && r ≤ ch 'z') || (ch '0' ≤ r && r ≤ ch '9') ||
      decide (r ∈ lit "-._:~!$&'()*+,;=%@")

/-- The function `parseHost` of `net/url`. -/
def parseHost (host : Str) : Except UrlError Str :=
  if HasPrefix host (lit "[") then
    match LastIndexByte host (ch ']') with
    | none => .error (.other "missing ']' in host")
    | some i =>
      if !validOptionalPort (host.drop (i + 1)) then .error (.other "invalid port after host")
      else
        match Index (host.take i) (lit "%25") with
        | some zone =>
          match unescape (host.take zone) encodeHost with
          | .error e => .error e
          | .ok host1 =>
            match unescape ((host.take i).drop zone) encodeZone with
            | .error e => .error e
            | .ok host2 =>
              match unescape (host.drop i) encodeHost with
              | .error e => .error e
              | .ok host3 => .ok (host1 ++ host2 ++ host3)
        | none => unescape host encodeHost
  else
    match LastIndexByte host (ch ':') with
    | some i =>
      if !validOptionalPort (host.drop i) then .error (.other "invalid port after host")
      else unescape host encodeHost
    | none => unescape host encodeHost

/-- The function `parseAuthority` of `net/url`: the user information and the host of
`[userinfo@]host`. -/
def parseAuthority (authority : Str) : Except UrlError (Option Userinfo × Str) :=
  let i := LastIndexByte authority (ch '@')
  match (match i with
      | none => parseHost authority
      | some i => parseHost (authority.drop (i + 1))) with
  | .error e => .error e
  | .ok host =>
    match i with
    | none => .ok (none, host)
    | some i =>
      let userinfo := authority.take i
      if !validUserinfo userinfo then .error (.other "net/url: invalid userinfo")
      else if !Contains userinfo (lit ":") then
        match unescape userinfo encodeUserPassword with
        | .error e => .error e
        | .ok userinfo => .ok (some ⟨userinfo, [], false⟩, host)
      else
        let c := Cut userinfo (lit ":")
        match unescape c.1 encodeUserPassword with
        | .error e => .error e
        | .ok username =>
          match unescape c.2.1 encodeUserPassword with
          | .error e => .error e
          | .ok password => .ok (some ⟨username, password, true⟩, host)

/-- The method `(*URL).setPath` of `net/url`. -/
def setPath (u : URL) (p : Str) : Except UrlError URL :=
  match unescape p encodePath with
  | .error e => .error e
  | .ok path =>
    .ok { u with Path := path, RawPath := if p = escape path encodePath then [] else p }

/-- The method `(*URL).setFragment` of `net/url`. -/
def setFragment (u : URL) (f : Str) : Except UrlError URL :=
  match unescape f encodeFragment with
  | .error e => .error e
  | .ok frag =>
    .ok { u with Fragment := frag,
                 RawFragment := if f = escape frag encodeFragment then [] else f }

/-- The function `parse` of `net/url` with `viaRequest` false, as `url.Parse` calls it. -/
def parse (rawURL : Str) : Except UrlError URL :=
  if stringContainsCTLByte rawURL then
    .error (.other "net/url: invalid control character in URL")
  else if rawURL = lit "*" then .ok { Path := lit "*" }
  else
    match getScheme rawURL with
    | .error e => .error e
    | .ok (scheme, rest0) =>
      let url : URL := { Scheme := ToLower scheme }
      let forceQuery := HasSuffix rest0 (lit "?") && CountByte rest0 (ch '?') == 1
      let rest := if forceQuery then rest0.take (rest0.length - 1) else (Cut rest0 (lit "?")).1
      let url := { url with
        ForceQuery := forceQuery
        RawQuery := if forceQuery then [] else (Cut rest0 (lit "?")).2.1 }
      if !HasPrefix rest (lit "/") ∧ url.Scheme ≠ [] then .ok { url with Opaque := rest }
      else if !HasPrefix rest (lit "/") ∧ Contains (Cut rest (lit "/")).1 (lit ":") then
        .error (.other "first path segment in URL cannot contain colon")
      else if (url.Scheme ≠ [] ∨ !HasPrefix rest (lit "///")) ∧ HasPrefix rest (lit "//") then
        let authority0 := rest.drop 2
        let authority := match Index authority0 (lit "/") with
          | some i => authority0.take i
          | none => authority0
        let rest := match Index authority0 (lit "/") with
          | some i => authority0.drop i
          | none => []
        match parseAuthority authority with
        | .error e => .error e
        | .ok (user, host) => setPath { url with User := user, Host := host } rest
      else if url.Scheme ≠ [] ∧ HasPrefix rest (lit "/") then
        setPath { url with OmitHost := true } rest
      else setPath url rest

/-- The function `url.Parse`: the fragment is cut off at the first `#`, the rest goes
to `parse`. -/
def Parse (rawURL : Str) : Except UrlError URL :=
  let c := Cut rawURL (lit "#")
  match parse c.1 with
  | .error e => .error e
  | .ok url => if c.2.1 = [] then .ok url else setFragment url c.2.1

/-! ## `main.go`: the domain gate -/

/-- The variable `allowedDomains` of `main.go`. -/
def allowedDomains : List Str := [lit "pinimg.com", lit "i.pinimg.com", lit "pinterest.com"]

/-- The loop of `isAllowedDomain` over the allow-list: it returns true at the first
domain that the host equals or that, after a dot, ends the host. -/
def hostAllowed (host : Str) : List Str → Bool
  | [] => false
  | domain :: rest =>
    if host = domain ∨ HasSuffix host (lit "." ++ domain) then true else hostAllowed host rest

/-- The function `isAllowedDomain` of `main.go`. -/
def isAllowedDomain (urlStr : Str) : Bool :=
  match Parse urlStr with
  | .error _ => false
  | .ok parsedUrl =>
    if parsedUrl.Host = [] then false else hostAllowed parsedUrl.Host allowedDomains

/-! ## The request: gin's `Context` -/

/-- The loop of `parseQuery` of `net/url`, which `url.ParseQuery` runs: the pairs it
appends to the `Values`, in order.  Each round cuts the query at the first `&`, so the
length of the query is fuel enough.  Pairs with a `;`, an empty key or a malformed
escape are skipped (the error they set is dropped by `(*URL).Query`). -/
def parseQueryLoop : Nat → Str → List (Str × Str)
  | 0, _ => []
  | n + 1, query =>
    if query = [] then []
    else
      let c := Cut query (lit "&")
      let key := c.1
      let query := c.2.1
      if Contains key (lit ";") then parseQueryLoop n query
      else if key = [] then parseQueryLoop n query
      else
        let kv := Cut key (lit "=")
        match QueryUnescape kv.1 with
        | .error _ => parseQueryLoop n query
        | .ok key =>
          match QueryUnescape kv.2.1 with
          | .error _ => parseQueryLoop n query
          | .ok value => (key, value) :: parseQueryLoop n query

/-- The method `(*URL).Query` of `net/url`: `ParseQuery(u.RawQuery)` with its error
dropped. -/
def URLQuery (rawQuery : Str) : List (Str × Str) := parseQueryLoop rawQuery.length rawQuery

/-- What the handlers read of gin's `Context`: the raw query of the request URL. -/
structure Context where
  RawQuery : Str
  deriving DecidableEq, Repr

/-- The method `(*Context).Query` of gin: the first value of the key in the parsed
query, or the empty string. -/
def Context.Query (c : Context) (key : Str) : Str :=
  match (URLQuery c.RawQuery).find? fun kv => kv.1 == key with
  | some kv => kv.2
  | none => []

/-- What a handler wrote to gin's `Context`. -/
inductive Reply where
  /-- The handler returned without writing: `net/http` then answers `200 OK` with an
  empty body. -/
  | unwritten
  /-- The call `c.JSON(code, gin.H{"error": msg})`. -/
  | JSON (code : Nat) (error : String)
  /-- The call `c.HTML(code, name, gin.H{"Images": …, "Bookmark": …, "Query": …,
  "CSRFToken": …})`. -/
  | HTML (code : Nat) (name : String) (Images : List Str) (Bookmark Query CSRFToken : Str)
  /-- The call `c.Data(code, contentType, data)`, after the `c.Header` calls in
  `header`. -/
  | Data (header : List (String × String)) (code : Nat) (contentType : String) (data : Str)
  deriving DecidableEq, Repr

/-- The status code of the HTTP response. -/
def Reply.status : Reply → Nat
  | .unwritten => 200
  | .JSON code _ => code
  | .HTML code _ _ _ _ _ => code
  | .Data _ code _ _ => code

/-- The images of the HTTP response: those of the results page, none otherwise. -/
def Reply.images : Reply → List Str
  | .HTML _ _ Images _ _ _ => Images
  | _ => []

/-- The constant `http.StatusOK`. -/
def StatusOK : Nat := 200

/-- The constant `http.StatusForbidden`. -/
def StatusForbidden : Nat := 403

/-- The constant `http.StatusInternalServerError`. -/
def StatusInternalServerError : Nat := 500

/-! ## `net/http`: what the handlers see of the outside -/

/-- An error of `net/http` or `io`, by its message. -/
structure NetError where
  msg : String
  deriving DecidableEq, Repr

/-- The type `http.Request`, as far as `searchHandler` fills it. -/
structure Request where
  Method : Str
  URL : Str
  Header : List (Str × Str)
  deriving DecidableEq, Repr

/-- The method `Header.Set`: the value replaces those of the key.  (`net/http` stores
the key in canonical case; the key is kept as written here.) -/
def Request.HeaderSet (req : Request) (key value : Str) : Request :=
  { req with Header := (req.Header.filter fun kv => kv.1 != key) ++ [(key, value)] }

/-- What `io.ReadAll` returns on a response body: the bytes read, and the error that
stopped the read if it was not the end of the body. -/
structure ReadAllResult where
  data : Str
  err : Option NetError
  deriving DecidableEq, Repr

/-- The type `http.Response` of an image fetch. -/
structure ImageResponse where
  StatusCode : Nat
  Body : ReadAllResult
  deriving DecidableEq, Repr

/-! ## `encoding/json`: decoding the upstream response -/

/-- A JSON value, as the scanner of `encoding/json` delivers it: strings are unquoted,
and an object is the sequence of its members in the order of the text (a key may
repeat). -/
inductive Json where
  | null
  | bool (b : Bool)
  | number (text : Str)
  | string (s : Str)
  | array (items : List Json)
  | object (members : List (Str × Json))

/-- The type `http.Response` of the search request: reading the body gives the first
JSON value of it, or the error met reading or scanning it. -/
structure UpstreamResponse where
  StatusCode : Nat
  Body : Except NetError Json

/-- The struct of the field `Orig` in `responseData`. -/
structure OrigT where
  URL : Str := []
  deriving DecidableEq, Repr

/-- The struct of the field `Images` in `responseData`. -/
structure ImagesT where
  Orig : OrigT := {}
  deriving DecidableEq, Repr

/-- The struct of an element of `Results` in `responseData`. -/
structure ResultT where
  Images : ImagesT := {}
  deriving DecidableEq, Repr

/-- A Go slice of results: the elements up to its length, and the elements that an
earlier, longer content left in its backing array beyond the length.  The decoder
reuses those when it extends the slice again. -/
structure ResultSlice where
  elems : List ResultT := []
  spare : List ResultT := []
  deriving DecidableEq, Repr

/-- The struct of the field `Data` in `responseData`. -/
structure DataT where
  Results : ResultSlice := {}
  deriving DecidableEq, Repr

/-- The struct of the field `ResourceResponse` in `responseData`. -/
structure ResourceResponseT where
  Data : DataT := {}
  Bookmark : Str := []
  deriving DecidableEq, Repr

/-- The variable `responseData` of `searchHandler`; `{}` is its zero value. -/
structure ResponseData where
  ResourceResponse : ResourceResponseT := {}
  deriving DecidableEq, Repr

/-- How `encoding/json` finds the struct field of an object key: the field whose name
is the key, else the first field whose name equals the key under `foldName`, the
case folding of `encoding/json` (the Unicode tables behind it are a parameter). -/
def findField (foldName : Str → Str) (names : List Str) (key : Str) : Option Nat :=
  match names.indexOf? key with
  | some i => some i
  | none => (names.map foldName).indexOf? (foldName key)

/-- Decoding an object into a struct: each member in turn is stored into the field
its key names, and skipped if it names none.  The first error ends the decoding:
`Decode` goes on after a type error but returns it in the end. -/
def decodeMembers {α : Type} (foldName : Str → Str) (names : List Str)
    (store : Nat → α → Json → Except NetError α) : α → List (Str × Json) → Except NetError α
  | cur, [] => .ok cur
  | cur, (key, value) :: rest =>
    match findField foldName names key with
    | none => decodeMembers foldName names store cur rest
    | some i =>
      match store i cur value with
      | .error e => .error e
      | .ok cur => decodeMembers foldName names store cur rest

/-- Decoding a JSON value into a struct: an object fills the fields, `null` leaves the
struct as it is, anything else is an `UnmarshalTypeError`. -/
def decodeStruct {α : Type} (foldName : Str → Str) (names : List Str)
    (store : Nat → α → Json → Except NetError α) (cur : α) : Json → Except NetError α
  | .object members => decodeMembers foldName names store cur members
  | .null => .ok cur
  | _ => .error ⟨"json: cannot unmarshal into Go value of struct type"⟩

/-- Decoding a JSON value into a `string`: a string is stored, `null` leaves the
variable as it is, anything else is an `UnmarshalTypeError`. -/
def decodeString (cur : Str) : Json → Except NetError Str
  | .string s => .ok s
  | .null => .ok cur
  | _ => .error ⟨"json: cannot unmarshal into Go value of type string"⟩

/-- Decoding into the struct `Orig`, whose field `URL` has the name `url`. -/
def decodeOrig (foldName : Str → Str) (cur : OrigT) (v : Json) : Except NetError OrigT :=
  decodeStruct foldName [lit "url"]
    (fun _ cur v => (decodeString cur.URL v).map fun s => { cur with URL := s }) cur v

/-- Decoding into the struct `Images`, whose field `Orig` has the name `orig`. -/
def decodeImages (foldName : Str → Str) (cur : ImagesT) (v : Json) : Except NetError ImagesT :=
  decodeStruct foldName [lit "orig"]
    (fun _ cur v => (decodeOrig foldName cur.Orig v).map fun o => { cur with Orig := o }) cur v

/-- Decoding into an element of `Results`, whose field `Images` has the name `images`. -/
def decodeResult (foldName : Str → Str) (cur : ResultT) (v : Json) : Except NetError ResultT :=
  decodeStruct foldName [lit "images"]
    (fun _ cur v => (decodeImages foldName cur.Images v).map fun o => { cur with Images := o })
    cur v

/-- The loop of `(*decodeState).array` on a slice: the item at offset `i` is decoded
into the element that the backing array holds at `i`, a zero element once the array
has to grow. -/
def decodeElems (foldName : Str → Str) : List ResultT → List Json → Except NetError (List ResultT)
  | _, [] => .ok []
  | backing, item :: items =>
    match decodeResult foldName (backing.headD {}) item with
    | .error e => .error e
    | .ok r =>
      match decodeElems foldName backing.tail items with
      | .error e => .error e
      | .ok rs => .ok (r :: rs)

/-- Decoding a JSON value into the slice `Results`: an array sets the length to its
number of items (an empty array gives a fresh empty slice), `null` gives the nil
slice, anything else is an `UnmarshalTypeError`. -/
def decodeResults (foldName : Str → Str) (cur : ResultSlice) : Json → Except NetError ResultSlice
  | .array [] => .ok {}
  | .array (item :: items) =>
    match decodeElems foldName (cur.elems ++ cur.spare) (item :: items) with
    | .error e => .error e
    | .ok rs => .ok { elems := rs, spare := (cur.elems ++ cur.spare).drop (items.length + 1) }
  | .null => .ok {}
  | _ => .error ⟨"json: cannot unmarshal into Go value of slice type"⟩

/-- Decoding into the struct `Data`, whose field `Results` has the name `results`. -/
def decodeData (foldName : Str → Str) (cur : DataT) (v : Json) : Except NetError DataT :=
  decodeStruct foldName [lit "results"]
    (fun _ cur v => (decodeResults foldName cur.Results v).map fun o => { cur with Results := o })
    cur v

/-- Decoding into the struct `ResourceResponse`, with the fields `Data` (named `data`)
and `Bookmark` (named `bookmark`). -/
def decodeResourceResponse (foldName : Str → Str) (cur : ResourceResponseT) (v : Json) :
    Except NetError ResourceResponseT :=
  decodeStruct foldName [lit "data", lit "bookmark"]
    (fun i cur v =>
      match i with
      | 0 => (decodeData foldName cur.Data v).map fun o => { cur with Data := o }
      | 1 => (decodeString cur.Bookmark v).map fun s => { cur with Bookmark := s }
      | _ => .ok cur)
    cur v

/-- The call `json.NewDecoder(resp.Body).Decode(&responseData)`: the first JSON value
of the body is stored into `responseData`. -/
def Decode (foldName : Str → Str) (body : Except NetError Json) (responseData : ResponseData) :
    Except NetError ResponseData :=
  match body with
  | .error e => .error e
  | .ok v =>
    decodeStruct foldName [lit "resource_response"]
      (fun _ cur v =>
        (decodeResourceResponse foldName cur.ResourceResponse v).map fun o =>
          { cur with ResourceResponse := o })
      responseData v

/-! ## `unicode/utf8` and `encoding/json`: encoding the upstream request -/

/-- The constant `utf8.RuneError`, U+FFFD. -/
def RuneError : Nat := 0xFFFD

/-- The function `utf8.DecodeRuneInString`: the first rune of `s` and its width in
bytes, `(RuneError, 1)` if the encoding is invalid and `(RuneError, 0)` if `s` is empty.
The tables `first` and `acceptRanges` are written as the comparisons they hold, the
masks and shifts as `%` and `*`. -/
def DecodeRuneInString : Str → Nat × Nat
  | [] => (RuneError, 0)
  | s0 :: rest =>
    if s0.val < 0x80 then (s0.val, 1)
    else if s0.val < 0xC2 ∨ 0xF4 < s0.val then (RuneError, 1)
    else
      let sz := if s0.val < 0xE0 then 2 else if s0.val < 0xF0 then 3 else 4
      let lo := if s0.val = 0xE0 then 0xA0 else if s0.val = 0xF0 then 0x90 else 0x80
      let hi := if s0.val = 0xED then 0x9F else if s0.val = 0xF4 then 0x8F else 0xBF
      if rest.length + 1 < sz then (RuneError, 1)
      else
        match rest with
        | [] => (RuneError, 1)
        | s1 :: rest1 =>
          if s1.val < lo ∨ hi < s1.val then (RuneError, 1)
          else if sz ≤ 2 then (s0.val % 32 * 64 + s1.val % 64, 2)
          else
            match rest1 with
            | [] => (RuneError, 1)
            | s2 :: rest2 =>
              if s2.val < 0x80 ∨ 0xBF < s2.val then (RuneError, 1)
              else if sz ≤ 3 then (s0.val % 16 * 4096 + s1.val % 64 * 64 + s2.val % 64, 3)
              else
                match rest2 with
                | [] => (RuneError, 1)
                | s3 :: _ =>
                  if s3.val < 0x80 ∨ 0xBF < s3.val then (RuneError, 1)
                  else
                    (s0.val % 8 * 262144 + s1.val % 64 * 4096 + s2.val % 64 * 64 + s3.val % 64,
                      4)

/-- The loop of `utf8.ValidString`, with the length of the string as fuel: an ASCII byte
is passed, and so is a rune of several bytes that `DecodeRuneInString` accepts (the
source tests the bytes against the same tables). -/
def ValidStringLoop : Nat → Str → Bool
  | 0, s => s.isEmpty
  | _ + 1, [] => true
  | n + 1, b :: rest =>
    if b.val < 0x80 then ValidStringLoop n rest
    else
      let r := DecodeRuneInString (b :: rest)
      if r.2 = 1 then false else ValidStringLoop n ((b :: rest).drop r.2)

/-- The function `utf8.ValidString`: whether `s` consists entirely of valid UTF-8. -/
def ValidString (s : Str) : Bool := ValidStringLoop s.length s

/-- The table `htmlSafeSet` of `encoding/json`: the ASCII bytes written as they are. -/
def htmlSafeSet (b : Byte) : Bool :=
  decide (0x20 ≤ b ∧ b < 0x80) && !(b ∈ lit "\"&<>\\")

/-- The table `hex` of `encoding/json`, indexed by a nibble. -/
def hex (n : Nat) : Byte := (lit "0123456789abcdef").getD n 0

/-- What `appendString` of `encoding/json` writes for an ASCII byte, with
`escapeHTML` set as `json.Marshal` sets it. -/
def appendASCII (b : Byte) : Str :=
  if htmlSafeSet b then [b]
  else if b = ch '\\' ∨ b = ch '"' then [ch '\\', b]
  else if b = 0x08 then lit "\\b"
  else if b = 0x0C then lit "\\f"
  else if b = 0x0A then lit "\\n"
  else if b = 0x0D then lit "\\r"
  else if b = 0x09 then lit "\\t"
  else lit "\\u00" ++ [hex (b.val / 16), hex (b.val % 16)]

/-- The loop of `appendString` of `encoding/json`, with the length of the string as
fuel: an ASCII byte is written or escaped, an invalid byte becomes `\ufffd`, U+2028
and U+2029 are escaped, and any other rune is copied. -/
def appendStringLoop : Nat → Str → Str
  | 0, _ => []
  | _ + 1, [] => []
  | n + 1, b :: rest =>
    if b.val < 0x80 then appendASCII b ++ appendStringLoop n rest
    else
      let r := DecodeRuneInString ((b :: rest).take 4)
      if r.1 = RuneError ∧ r.2 = 1 then lit "\\ufffd" ++ appendStringLoop n rest
      else if r.1 = 0x2028 ∨ r.1 = 0x2029 then
        lit "\\u202" ++ [hex (r.1 % 16)] ++ appendStringLoop n ((b :: rest).drop r.2)
      else (b :: rest).take r.2 ++ appendStringLoop n ((b :: rest).drop r.2)

/-- The function `appendString` of `encoding/json`: the JSON string for `src`. -/
def appendString (src : Str) : Str := lit "\"" ++ appendStringLoop src.length src ++ lit "\""

/-- The order of Go strings, byte by byte. -/
def strLE : Str → Str → Bool
  | [], _ => true
  | _ :: _, [] => false
  | a :: s, b :: t => a < b || (a == b && strLE s t)

/-- The map encoder of `encoding/json` on a `map[string]interface{}` whose values are
already encoded: the members are written sorted by key. -/
def encodeMap (members : List (Str × Str)) : Str :=
  lit "\x7b" ++
    (lit ",").intercalate
      ((members.insertionSort fun a b => strLE a.1 b.1).map fun kv =>
        appendString kv.1 ++ lit ":" ++ kv.2) ++
    lit "\x7d"

/-- The slice encoder of `encoding/json` on a `[]string`. -/
def encodeStringSlice (xs : List Str) : Str :=
  lit "[" ++ (lit ",").intercalate (xs.map appendString) ++ lit "]"

/-- The JSON text of `dataParamObj` in `searchHandler`, the map
`{"options": {"query": query, "bookmarks": []string{bookmark}}}`. -/
def dataParamText (query bookmark : Str) : Str :=
  encodeMap [(lit "options",
    encodeMap [(lit "query", appendString query),
      (lit "bookmarks", encodeStringSlice [bookmark])])]

/-- The call `json.Marshal(dataParamObj)` of `searchHandler`: strings, slices of strings
and maps keyed by strings always encode. -/
def Marshal (query bookmark : Str) : Except NetError Str := .ok (dataParamText query bookmark)

/-- The function `getu4` of `encoding/json`: the code unit of a `\uXXXX` escape at the
start of `s`, if there is one. -/
def getu4 : Str → Option Nat
  | b0 :: b1 :: c1 :: c2 :: c3 :: c4 :: _ =>
    if b0 ≠ ch '\\' ∨ b1 ≠ ch 'u' then none
    else if ishex c1 && ishex c2 && ishex c3 && ishex c4 then
      some ((((unhex c1).val * 16 + (unhex c2).val) * 16 + (unhex c3).val) * 16 + (unhex c4).val)
    else none
  | _ => none

/-- The function `utf16.IsSurrogate`. -/
def IsSurrogate (r : Nat) : Bool := decide (0xD800 ≤ r ∧ r < 0xE000)

/-- The function `utf16.DecodeRune`: the code point of a surrogate pair, U+FFFD if the
pair is not valid; `none` stands for the `-1` of a missing second escape. -/
def utf16DecodeRune (r1 : Nat) (r2 : Option Nat) : Nat :=
  match r2 with
  | some r2 =>
    if 0xD800 ≤ r1 ∧ r1 < 0xDC00 ∧ 0xDC00 ≤ r2 ∧ r2 < 0xE000 then
      (r1 - 0xD800) * 1024 + (r2 - 0xDC00) + 0x10000
    else RuneError
  | none => RuneError

/-- One round of the loop of `unquoteBytes` of `encoding/json`, on the text `s` that is
left: the bytes it writes and the number of bytes of `s` it reads.  An escape is
replaced, a quote or a control byte is refused, and any other rune is written again in
UTF-8. -/
def unquoteStep : Str → Option (Str × Nat)
  | [] => none
  | c :: rest =>
    if c = ch '\\' then
      match rest with
      | [] => none
      | e :: _ =>
        if e = ch '"' ∨ e = ch '\\' ∨ e = ch '/' ∨ e = ch '\'' then some ([e], 2)
        else if e = ch 'b' then some ([0x08], 2)
        else if e = ch 'f' then some ([0x0C], 2)
        else if e = ch 'n' then some ([0x0A], 2)
        else if e = ch 'r' then some ([0x0D], 2)
        else if e = ch 't' then some ([0x09], 2)
        else if e = ch 'u' then
          match getu4 (c :: rest) with
          | none => none
          | some rr =>
            if IsSurrogate rr then
              if utf16DecodeRune rr (getu4 (rest.drop 5)) ≠ RuneError then
                some (encodeRune (utf16DecodeRune rr (getu4 (rest.drop 5))), 12)
              else some (encodeRune RuneError, 6)
            else some (encodeRune rr, 6)
        else none
    else if c = ch '"' ∨ c < ch ' ' then none
    else if c.val < 0x80 then some ([c], 1)
    else some (encodeRune (DecodeRuneInString (c :: rest)).1, (DecodeRuneInString (c :: rest)).2)

/-- The loop of `unquoteBytes` of `encoding/json` over the text between the quotes,
with its length as fuel (each round reads at least one byte).  The source returns the
text itself when it holds nothing to replace, which is what this loop writes then. -/
def unquoteLoop : Nat → Str → Option Str
  | 0, s => if s.isEmpty then some [] else none
  | n + 1, s =>
    if s.isEmpty then some []
    else
      match unquoteStep s with
      | none => none
      | some (out, k) => (unquoteLoop n (s.drop k)).map (out ++ ·)

/-- The function `unquote` of `encoding/json`, with which a JSON string is decoded: the
text has to stand between two quotes. -/
def unquote (s : Str) : Option Str :=
  match s with
  | q :: rest =>
    if q = ch '"' ∧ rest.getLast? = some (ch '"') then
      unquoteLoop (rest.length - 1) rest.dropLast
    else none
  | [] => none

/-! ## `main.go`: the handlers -/

/-- The type `http.Response` as the transport returns it: the status, the `Location`
header (empty if there is none) and the body. -/
structure TransportResponse where
  StatusCode : Nat
  Location : Str
  Body : ReadAllResult
  deriving DecidableEq, Repr

/-- What the handlers reach outside the process: the environment variable `URL` (read
by `os.Getenv` after `godotenv.Load`), `http.NewRequest` and `(*http.Client).Do` of the
search request, the transport of the default client (`RoundTrip`, on the URL of a
`GET`), the method `(*URL).Parse` that resolves a `Location` against the URL of the
request, and the case folding of `encoding/json`. -/
structure World where
  URL : Str
  NewRequest : Str → Str → Except NetError Request
  Do : Request → Except NetError UpstreamResponse
  RoundTrip : Str → Except NetError TransportResponse
  ResolveLocation : Str → Str → Except NetError Str
  foldName : Str → Str

/-- The function `redirectBehavior` of `net/http` for a `GET`, which has no body: the
statuses 301, 302, 303, 307 and 308 ask for a redirect. -/
def shouldRedirect (status : Nat) : Bool :=
  status == 301 || status == 302 || status == 303 || status == 307 || status == 308

/-- The loop of `(*Client).do` of `net/http` on a `GET` of `url` when `k` more requests
may be sent: the response that is returned, and the URLs handed to the transport, in
order.  A redirect with a `Location` is followed without asking the caller; the
`defaultCheckRedirect` stops after ten requests (the source then returns the error
together with the last response). -/
def clientDo (w : World) : Nat → Str → Except NetError ImageResponse × List Str
  | 0, _ => (.error ⟨"stopped after 10 redirects"⟩, [])
  | k + 1, url =>
    match w.RoundTrip url with
    | .error e => (.error e, [url])
    | .ok resp =>
      if !shouldRedirect resp.StatusCode then (.ok ⟨resp.StatusCode, resp.Body⟩, [url])
      else if resp.Location = [] then (.ok ⟨resp.StatusCode, resp.Body⟩, [url])
      else
        match w.ResolveLocation url resp.Location with
        | .error e => (.error e, [url])
        | .ok next => ((clientDo w k next).1, url :: (clientDo w k next).2)

/-- The function `http.Get` with what it hands to the transport: `http.NewRequest`
parses the URL, and the default client sends the request and follows redirects. -/
def World.clientGet (w : World) (url : Str) : Except NetError ImageResponse × List Str :=
  match Parse url with
  | .error _ => (.error ⟨"parse"⟩, [])
  | .ok _ => clientDo w 10 url

/-- The function `http.Get`: the response or the error it returns. -/
def World.Get (w : World) (url : Str) : Except NetError ImageResponse := (w.clientGet url).1

/-- The URLs that the transport receives when `http.Get` is called on each of `calls`. -/
def World.transportURLs (w : World) (calls : List Str) : List Str :=
  calls.flatMap fun url => (w.clientGet url).2

/-- The constant `apiURL` of `searchHandler`. -/
def apiURL : Str := lit "https://www.pinterest.com/resource/BaseSearchResource/get/"

/-- The loop of `searchHandler` over the results: the proxy URL of each result whose
image URL is not empty and is allowed is appended to `images`. -/
def imagesLoop (URL : Str) : List Str → List ResultT → List Str
  | images, [] => images
  | images, result :: rest =>
    let imageUrl := result.Images.Orig.URL
    if imageUrl ≠ [] ∧ isAllowedDomain imageUrl then
      imagesLoop URL (images ++ [URL ++ lit "/image?url=" ++ QueryEscape imageUrl]) rest
    else imagesLoop URL images rest

/-- The value of `finalURL` in `searchHandler`:
`fmt.Sprintf("%s?data=%s", apiURL, url.QueryEscape(string(dataParam)))`. -/
def finalURL (dataParam : Str) : Str := apiURL ++ lit "?data=" ++ QueryEscape dataParam

/-- The block `if csrftoken != ""` of `searchHandler`: the token is set as the header
`x-csrftoken` and as the cookie `csrftoken=<token>`. -/
def setCSRF (req : Request) (csrftoken : Str) : Request :=
  if csrftoken ≠ [] then
    (req.HeaderSet (lit "x-csrftoken") csrftoken).HeaderSet (lit "cookie")
      (lit "csrftoken=" ++ csrftoken)
  else req

/-- The function `searchHandler` of `main.go`: what it writes to the context, and the
requests it hands to `client.Do`. -/
def searchHandler (w : World) (c : Context) : Reply × List Request :=
  let URL := w.URL
  if URL = [] then (.unwritten, [])
  else
    let query := c.Query (lit "q")
    let bookmark := c.Query (lit "bookmark")
    let csrftoken := c.Query (lit "csrftoken")
    match Marshal query bookmark with
    | .error _ => (.JSON StatusInternalServerError "Failed to encode data", [])
    | .ok dataParam =>
      match w.NewRequest (lit "GET") (finalURL dataParam) with
      | .error _ => (.JSON StatusInternalServerError "Failed to create request", [])
      | .ok req =>
        let req := setCSRF req csrftoken
        match w.Do req with
        | .error _ => (.JSON StatusInternalServerError "Request failed", [req])
        | .ok resp =>
          match Decode w.foldName resp.Body {} with
          | .error _ => (.JSON StatusInternalServerError "Failed to decode response", [req])
          | .ok responseData =>
            let images := imagesLoop URL [] responseData.ResourceResponse.Data.Results.elems
            (.HTML StatusOK "results.html" images responseData.ResourceResponse.Bookmark query
              csrftoken, [req])

/-- The function `fetchImage` of `main.go`: the bytes and the error it returns, and
the URLs it hands to `http.Get`. -/
def fetchImage (w : World) (imageUrl : Str) : (Str × Option NetError) × List Str :=
  match w.Get imageUrl with
  | .error _ => (([], some ⟨"failed to fetch image"⟩), [imageUrl])
  | .ok resp =>
    if resp.StatusCode ≠ StatusOK then (([], some ⟨"failed to fetch image"⟩), [imageUrl])
    else ((resp.Body.data, resp.Body.err), [imageUrl])

/-- The function `proxyImageHandler` of `main.go`: what it writes to the context, and
the URLs handed to `http.Get`. -/
def proxyImageHandler (w : World) (c : Context) : Reply × List Str :=
  let imageUrl := c.Query (lit "url")
  if !isAllowedDomain imageUrl then (.JSON StatusForbidden "Domain not allowed", [])
  else
    match fetchImage w imageUrl with
    | ((_, some _), calls) => (.JSON StatusInternalServerError "Failed to fetch image", calls)
    | ((imageSrc, none), calls) =>
      (.Data [("Content-Type", "image/png")] StatusOK "image/png" imageSrc, calls)

/-- Whether a JSON value has a member `bookmark` in an object `resource_response`, under
the field matching of `encoding/json`. -/
def mentionsBookmark (foldName : Str → Str) : Json → Bool
  | .object members =>
    members.any fun kv =>
      (findField foldName [lit "resource_response"] kv.1).isSome &&
        match kv.2 with
        | .object inner =>
          inner.any fun kv => findField foldName [lit "data", lit "bookmark"] kv.1 == some 1
        | _ => false
  | _ => false

/-- The loop of `appendFoldedName` of `encoding/json`, which `foldName` runs, with the
length of the name as fuel: an ASCII letter is made upper case, any other rune is
replaced by `foldRune` of it.  The table behind `foldRune` (`unicode.SimpleFold`) is a
parameter. -/
def foldNameLoop (foldRune : Nat → Nat) : Nat → Str → Str
  | 0, _ => []
  | _ + 1, [] => []
  | n + 1, c :: rest =>
    if c.val < 0x80 then
      (if ch 'a' ≤ c ∧ c ≤ ch 'z' then c - 32 else c) :: foldNameLoop foldRune n rest
    else
      encodeRune (foldRune (DecodeRuneInString (c :: rest)).1) ++
        foldNameLoop foldRune n ((c :: rest).drop (DecodeRuneInString (c :: rest)).2)

/-- The function `foldName` of `encoding/json`. -/
def foldName (foldRune : Nat → Nat) (name : Str) : Str :=
  foldNameLoop foldRune name.length name

/-- The function `foldRune` of `encoding/json` on the runes outside ASCII whose fold
orbit holds an ASCII letter: U+212A KELVIN SIGN folds to `K` and U+017F LATIN SMALL
LETTER LONG S to `S`.  Any other rune outside ASCII is left as it is here, where the
source takes the least rune of its orbit, which is not ASCII either; so a key matches a
field name written in ASCII under this function exactly when it does in the source. -/
def foldRuneASCII (r : Nat) : Nat :=
  if r = 0x212A then 0x4B else if r = 0x17F then 0x53 else r

/-- A world for the examples: the service runs at `URL`, requests are built as asked,
the upstream answers `200` with `body`, and the transport answers an image fetch with
`image`, without a `Location`. -/
def exampleWorld (URL : Str) (body : Except NetError Json)
    (image : Except NetError ImageResponse) : World where
  URL := URL
  NewRequest := fun method url => .ok ⟨method, url, []⟩
  Do := fun _ => .ok ⟨200, body⟩
  RoundTrip := fun _ =>
    match image with
    | .error e => .error e
    | .ok r => .ok ⟨r.StatusCode, [], r.Body⟩
  ResolveLocation := fun _ location => .ok location
  foldName := foldName foldRuneASCII

/-- A world in which the allowed host answers `https://i.pinimg.com/r` with a redirect
to `https://evil.com/x.png`, and every other URL is answered `200` with three bytes. -/
def redirectWorld : World where
  URL := lit "http://localhost:3000"
  NewRequest := fun method url => .ok ⟨method, url, []⟩
  Do := fun _ => .error ⟨"no upstream"⟩
  RoundTrip := fun url =>
    if url = lit "https://i.pinimg.com/r" then
      .ok ⟨302, lit "https://evil.com/x.png", ⟨[], none⟩⟩
    else .ok ⟨200, [], ⟨lit "PNG", none⟩⟩
  ResolveLocation := fun _ location => .ok location
  foldName := foldName foldRuneASCII

/-- An upstream response with the given image URLs and, if any, the given bookmark. -/
def exampleBody (urls : List Str) (bookmark : Option Str) : Json :=
  .object [(lit "resource_response",
    .object ([(lit "data", .object [(lit "results",
        .array (urls.map fun u =>
          .object [(lit "images", .object [(lit "orig", .object [(lit "url", .string u)])])]))])]
      ++ match bookmark with
        | some b => [(lit "bookmark", .string b)]
        | none => []))]



/-! ## A JSON decoder -/

/-- The bytes that JSON allows between tokens are skipped. -/
def skipSpace : Str → Str
  | [] => []
  | c :: rest =>
    if c = ch ' ' ∨ c = 0x09 ∨ c = 0x0A ∨ c = 0x0D then skipSpace rest else c :: rest

/-- The body of a JSON string, after its opening quote: the decoded string, up to the
closing quote, and the text that follows it. -/
def parseStringBody : Nat → Str → Option (Str × Str)
  | 0, _ => none
  | n + 1, s =>
    match s with
    | [] => none
    | c :: rest =>
      if c = ch '"' then some ([], rest)
      else
        match unquoteStep s with
        | none => none
        | some (out, k) => (parseStringBody n (s.drop k)).map fun r => (out ++ r.1, r.2)

/-- The text of a JSON number at the start of `s`, and what follows it. -/
def spanNumber (s : Str) : Str × Str :=
  s.span fun c => (ch '0' ≤ c && c ≤ ch '9') || decide (c ∈ lit "+-.eE")

mutual

/-- A JSON value at the start of `s` (after spaces), and the text that follows it. -/
def parseValue : Nat → Str → Option (Json × Str)
  | 0, _ => none
  | n + 1, s =>
    match skipSpace s with
    | [] => none
    | c :: rest =>
      if c = ch '"' then
        (parseStringBody (rest.length + 1) rest).map fun r => (.string r.1, r.2)
      else if c = ch '[' then
        match skipSpace rest with
        | [] => none
        | d :: rest2 =>
          if d = ch ']' then some (.array [], rest2)
          else (parseItems n rest).map fun r => (.array r.1, r.2)
      else if c = ch '{' then
        match skipSpace rest with
        | [] => none
        | d :: rest2 =>
          if d = ch '}' then some (.object [], rest2)
          else (parseMembers n rest).map fun r => (.object r.1, r.2)
      else if HasPrefix (c :: rest) (lit "null") then some (.null, (c :: rest).drop 4)
      else if HasPrefix (c :: rest) (lit "true") then some (.bool true, (c :: rest).drop 4)
      else if HasPrefix (c :: rest) (lit "false") then some (.bool false, (c :: rest).drop 5)
      else if (spanNumber (c :: rest)).1 = [] then none
      else some (.number (spanNumber (c :: rest)).1, (spanNumber (c :: rest)).2)

/-- The items of a JSON array up to its closing bracket. -/
def parseItems : Nat → Str → Option (List Json × Str)
  | 0, _ => none
  | n + 1, s =>
    match parseValue n s with
    | none => none
    | some (v, rest) =>
      match skipSpace rest with
      | [] => none
      | d :: rest2 =>
        if d = ch ',' then (parseItems n rest2).map fun r => (v :: r.1, r.2)
        else if d = ch ']' then some ([v], rest2)
        else none

/-- The members of a JSON object up to its closing brace. -/
def parseMembers : Nat → Str → Option (List (Str × Json) × Str)
  | 0, _ => none
  | n + 1, s =>
    match skipSpace s with
    | [] => none
    | q :: rest =>
      if q ≠ ch '"' then none
      else
        match parseStringBody (rest.length + 1) rest with
        | none => none
        | some (key, rest1) =>
          match skipSpace rest1 with
          | [] => none
          | d :: rest2 =>
            if d ≠ ch ':' then none
            else
              match parseValue n rest2 with
              | none => none
              | some (v, rest3) =>
                match skipSpace rest3 with
                | [] => none
                | e :: rest4 =>
                  if e = ch ',' then (parseMembers n rest4).map fun r => ((key, v) :: r.1, r.2)
                  else if e = ch '}' then some ([(key, v)], rest4)
                  else none

end

/-- Decoding a JSON text: one value, with nothing but spaces after it.  Each call of
the decoder reads a byte before it calls itself twice, so twice the length of the text
is fuel enough. -/
def parseJSON (s : Str) : Option Json :=
  match parseValue (2 * s.length + 2) s with
  | none => none
  | some (v, rest) => if skipSpace rest = [] then some v else none

/-! ## Definitions for the statements and the proofs -/

/-- What `escape` writes for one byte of a query component. -/
def escapeQueryByte (c : Byte) : Str :=
  if c = ch ' ' ∧ encodeQueryComponent = encodeQueryComponent then [ch '+']
  else if shouldEscape c encodeQueryComponent then
    [ch '%', upperhex (c.val / 16), upperhex (c.val % 16)]
  else [c]

/-- The test of the loop of `searchHandler`: the image URL is not empty and allowed. -/
def keepResult (result : ResultT) : Bool :=
  decide (result.Images.Orig.URL ≠ []) && isAllowedDomain result.Images.Orig.URL

/-- The proxy URL that `searchHandler` builds for an image URL. -/
def proxyURL (URL imageUrl : Str) : Str := URL ++ lit "/image?url=" ++ QueryEscape imageUrl

/-- The bytes of a decimal port. -/
def isDigits (p : Str) : Prop := ∀ b ∈ p, ch '0' ≤ b ∧ b ≤ ch '9'

/-- The path that follows an authority: empty, or starting with a slash. -/
def pathShape (path : Str) : Prop := path = [] ∨ ∃ t, path = ch '/' :: t

/-- The part of `parse` that follows the split at the query: the authority and the
path of `rest`. -/
def parseTail (url : URL) (rest : Str) : Except UrlError URL :=
  if !HasPrefix rest (lit "/") ∧ url.Scheme ≠ [] then .ok { url with Opaque := rest }
  else if !HasPrefix rest (lit "/") ∧ Contains (Cut rest (lit "/")).1 (lit ":") then
    .error (.other "first path segment in URL cannot contain colon")
  else if (url.Scheme ≠ [] ∨ !HasPrefix rest (lit "///")) ∧ HasPrefix rest (lit "//") then
    let authority0 := rest.drop 2
    let authority := match Index authority0 (lit "/") with
      | some i => authority0.take i
      | none => authority0
    let rest := match Index authority0 (lit "/") with
      | some i => authority0.drop i
      | none => []
    match parseAuthority authority with
    | .error e => .error e
    | .ok (user, host) => setPath { url with User := user, Host := host } rest
  else if url.Scheme ≠ [] ∧ HasPrefix rest (lit "/") then
    setPath { url with OmitHost := true } rest
  else setPath url rest

/-- The value of `rest` in `parse` once the query is split off `rest0`. -/
def restOf (rest0 : Str) : Str :=
  if HasSuffix rest0 (lit "?") && CountByte rest0 (ch '?') == 1 then
    rest0.take (rest0.length - 1)
  else (Cut rest0 (lit "?")).1

/-- The bytes `a b` are a rune of two bytes. -/
def IsRune2 (a b : Byte) : Prop := 0xC2 ≤ a.val ∧ a.val < 0xE0 ∧ 0x80 ≤ b.val ∧ b.val ≤ 0xBF

/-- The bytes `a b c` are a rune of three bytes. -/
def IsRune3 (a b c : Byte) : Prop :=
  0xE0 ≤ a.val ∧ a.val < 0xF0 ∧ (if a.val = 0xE0 then 0xA0 else 0x80) ≤ b.val ∧
    b.val ≤ (if a.val = 0xED then 0x9F else 0xBF) ∧ 0x80 ≤ c.val ∧ c.val ≤ 0xBF

/-- The bytes `a b c d` are a rune of four bytes. -/
def IsRune4 (a b c d : Byte) : Prop :=
  0xF0 ≤ a.val ∧ a.val ≤ 0xF4 ∧ (if a.val = 0xF0 then 0x90 else 0x80) ≤ b.val ∧
    b.val ≤ (if a.val = 0xF4 then 0x8F else 0xBF) ∧ 0x80 ≤ c.val ∧ c.val ≤ 0xBF ∧
    0x80 ≤ d.val ∧ d.val ≤ 0xBF

/-! ## Escaping and unescaping are inverse -/

theorem escapeQueryByte_cases : ∀ c : Byte,
    (escapeQueryByte c = [ch '+'] ∧ c = ch ' ') ∨
    (escapeQueryByte c = [ch '%', upperhex (c.val / 16), upperhex (c.val % 16)] ∧
      ishex (upperhex (c.val / 16)) = true ∧ ishex (upperhex (c.val % 16)) = true ∧
      unhex (upperhex (c.val / 16)) * 16 + unhex (upperhex (c.val % 16)) = c) ∨
    (escapeQueryByte c = [c] ∧ c ≠ ch '%' ∧ c ≠ ch '+') := by
  decide!

theorem unescapeCheck_cons_ne (mode : encoding) (c : Byte) (rest : Str) (h : c ≠ ch '%') :
    unescapeCheck mode (c :: rest) =
      if c = ch '+' then unescapeCheck mode rest
      else if (mode = encodeHost ∨ mode = encodeZone) ∧ c < 0x80 ∧ shouldEscape c encodeHost then
        .error (.InvalidHostError [c])
      else unescapeCheck mode rest := by
  rw [unescapeCheck.eq_def]
  simp [h]

theorem unescapeWrite_cons_ne (mode : encoding) (c : Byte) (rest : Str) (h : c ≠ ch '%') :
    unescapeWrite mode (c :: rest) =
      if c = ch '+' then
        (if mode = encodeQueryComponent then ch ' ' else ch '+') :: unescapeWrite mode rest
      else c :: unescapeWrite mode rest := by
  rw [unescapeWrite.eq_def]
  simp [h]

theorem QueryEscape_cons (c : Byte) (s : Str) :
    QueryEscape (c :: s) = escapeQueryByte c ++ QueryEscape s := by
  simp [QueryEscape, escape, escapeQueryByte]

theorem unescapeCheck_QueryEscape (s : Str) :
    unescapeCheck encodeQueryComponent (QueryEscape s) = .ok () := by
  induction s with
  | nil => rfl
  | cons c s ih =>
    rw [QueryEscape_cons]
    rcases escapeQueryByte_cases c with ⟨h, _⟩ | ⟨h, h1, h2, _⟩ | ⟨h, hp, hq⟩
    · rw [h]
      rw [List.singleton_append, unescapeCheck_cons_ne _ (ch '+') _ (by decide)]
      simp [ih]
    · rw [h]
      simp [unescapeCheck, h1, h2, ih]
    · rw [h]
      rw [List.singleton_append, unescapeCheck_cons_ne _ _ _ hp]
      simp [hq, ih]

theorem unescapeWrite_QueryEscape (s : Str) :
    unescapeWrite encodeQueryComponent (QueryEscape s) = s := by
  induction s with
  | nil => rfl
  | cons c s ih =>
    rw [QueryEscape_cons]
    rcases escapeQueryByte_cases c with ⟨h, hc⟩ | ⟨h, _, _, hv⟩ | ⟨h, hp, hq⟩
    · rw [h]
      rw [List.singleton_append, unescapeWrite_cons_ne _ (ch '+') _ (by decide)]
      simp [ih, hc]
    · rw [h]
      simp [unescapeWrite, hv, ih]
    · rw [h]
      rw [List.singleton_append, unescapeWrite_cons_ne _ _ _ hp]
      simp [hq, ih]

theorem QueryUnescape_QueryEscape (s : Str) : QueryUnescape (QueryEscape s) = .ok s := by
  simp [QueryUnescape, unescape, unescapeCheck_QueryEscape, unescapeWrite_QueryEscape]

/-! ## Cutting at a byte -/

theorem HasPrefix_nil (s : Str) : HasPrefix s [] = true := by
  cases s <;> rfl

theorem HasPrefix_singleton (a c : Byte) (s : Str) : HasPrefix (a :: s) [c] = (a == c) := by
  simp [HasPrefix]

theorem Cut_singleton_append (c : Byte) (a b : Str) (h : c ∉ a) :
    Cut (a ++ b) [c] = (a ++ (Cut b [c]).1, (Cut b [c]).2.1, (Cut b [c]).2.2) := by
  induction a with
  | nil => simp
  | cons x a ih =>
    have hx : (x == c) = false := by
      simp only [List.mem_cons, not_or] at h
      simpa using fun e => h.1 e.symm
    have ha : c ∉ a := fun hm => h (List.mem_cons_of_mem _ hm)
    rw [List.cons_append, Cut, HasPrefix_singleton, hx, ih ha]
    by_cases hb : (Cut b [c]).2.2 = true
    · simp [hb]
    · have hb2 : (Cut b [c]).2.2 = false := by simpa using hb
      have h1 : ∀ t : Str, (Cut t [c]).2.2 = false → (Cut t [c]).1 = t := by
        intro t
        induction t with
        | nil => simp [Cut]
        | cons y t _ =>
          rw [Cut, HasPrefix_singleton]
          by_cases hy : (y == c) = true
          · simp [hy]
          · by_cases ht : (Cut t [c]).2.2 = true
            · simp [hy, ht]
            · simp [hy, ht]
      have h2 : ∀ t : Str, (Cut t [c]).2.2 = false → (Cut t [c]).2.1 = [] := by
        intro t
        induction t with
        | nil => simp [Cut]
        | cons y t _ =>
          rw [Cut, HasPrefix_singleton]
          by_cases hy : (y == c) = true
          · simp [hy]
          · by_cases ht : (Cut t [c]).2.2 = true
            · simp [hy, ht]
            · simp [hy, ht]
      simp [hb2, h1 b hb2, h2 b hb2]

theorem Cut_singleton_not_mem (c : Byte) (s : Str) (h : c ∉ s) : Cut s [c] = (s, [], false) := by
  have := Cut_singleton_append c s [] h
  simpa [Cut] using this

theorem Cut_singleton_cons_self (c : Byte) (b : Str) : Cut (c :: b) [c] = ([], b, true) := by
  simp [Cut, HasPrefix]

theorem Cut_singleton_mem (c : Byte) (a b : Str) (h : c ∉ a) :
    Cut (a ++ c :: b) [c] = (a, b, true) := by
  rw [Cut_singleton_append c a _ h, Cut_singleton_cons_self]
  simp

/-! ## The round trip of a proxy URL -/

theorem escapeQueryByte_separators_all : ∀ c : Byte,
    (escapeQueryByte c).all (fun b => b != ch '&' && b != ch ';' && b != ch '=') = true := by
  decide!

theorem escapeQueryByte_separators (c : Byte) : ∀ b ∈ escapeQueryByte c,
    b ≠ ch '&' ∧ b ≠ ch ';' ∧ b ≠ ch '=' := by
  intro b hb
  have h := List.all_eq_true.1 (escapeQueryByte_separators_all c) b hb
  simpa [and_assoc] using h

theorem QueryEscape_separators (s : Str) : ∀ b ∈ QueryEscape s,
    b ≠ ch '&' ∧ b ≠ ch ';' ∧ b ≠ ch '=' := by
  induction s with
  | nil => simp [QueryEscape, escape]
  | cons c s ih =>
    intro b hb
    rw [QueryEscape_cons, List.mem_append] at hb
    rcases hb with hb | hb
    · exact escapeQueryByte_separators c b hb
    · exact ih b hb

theorem parseQueryLoop_nil (n : Nat) : parseQueryLoop n [] = [] := by
  cases n <;> simp [parseQueryLoop]

theorem URLQuery_single (key U : Str)
    (hk2 : ∀ b ∈ key, b ≠ ch '&' ∧ b ≠ ch ';' ∧ b ≠ ch '=')
    (hk3 : QueryUnescape key = .ok key) :
    URLQuery (key ++ ch '=' :: QueryEscape U) = [(key, U)] := by
  have hamp : lit "&" = [ch '&'] := by decide
  have hsemi : lit ";" = [ch ';'] := by decide
  have heq : lit "=" = [ch '='] := by decide
  have hsep := QueryEscape_separators U
  have h1 : ch '&' ∉ key ++ ch '=' :: QueryEscape U := by
    intro hm
    rcases List.mem_append.1 hm with hm | hm
    · exact (hk2 _ hm).1 rfl
    · rcases List.mem_cons.1 hm with hm | hm
      · revert hm; decide
      · exact (hsep _ hm).1 rfl
  have h2 : ch ';' ∉ key ++ ch '=' :: QueryEscape U := by
    intro hm
    rcases List.mem_append.1 hm with hm | hm
    · exact (hk2 _ hm).2.1 rfl
    · rcases List.mem_cons.1 hm with hm | hm
      · revert hm; decide
      · exact (hsep _ hm).2.1 rfl
  have h3 : Cut (key ++ ch '=' :: QueryEscape U) (lit "=") = (key, QueryEscape U, true) := by
    rw [heq, Cut_singleton_mem _ _ _ fun hm => (hk2 _ hm).2.2 rfl]
  have h5 : key ++ ch '=' :: QueryEscape U ≠ [] := by simp
  unfold URLQuery
  have h6 : (key ++ ch '=' :: QueryEscape U).length =
      ((key ++ ch '=' :: QueryEscape U).length - 1) + 1 := by
    simp only [List.length_append, List.length_cons]
    omega
  rw [h6, parseQueryLoop]
  simp only [h5, if_false, hamp, hsemi, Cut_singleton_not_mem _ _ h1, Contains,
    Cut_singleton_not_mem _ _ h2, Bool.false_eq_true, parseQueryLoop_nil]
  rw [h3]
  simp only [hk3, QueryUnescape_QueryEscape]

theorem URLQuery_url (U : Str) : URLQuery (lit "url=" ++ QueryEscape U) = [(lit "url", U)] :=
  URLQuery_single (lit "url") U (by decide!) (by decide!)

theorem URLQuery_data (U : Str) : URLQuery (lit "data=" ++ QueryEscape U) = [(lit "data", U)] :=
  URLQuery_single (lit "data") U (by decide!) (by decide!)

/-- C4: query-unescaping `QueryEscape U` returns `U` for every string `U`; hence the
proxy URL built for `U` is `B ++ "/image?url=" ++ QueryEscape U`, and a request whose raw
query is `url=` followed by `QueryEscape U` gives `proxyImageHandler` exactly `U` as its
`url` parameter. -/
theorem proxy_url_round_trip (U : Str) :
    QueryUnescape (QueryEscape U) = .ok U ∧
      (∀ B : Str, imagesLoop B [] [⟨⟨⟨U⟩⟩⟩] =
        if U ≠ [] ∧ isAllowedDomain U then [B ++ lit "/image?url=" ++ QueryEscape U] else []) ∧
      Context.Query ⟨lit "url=" ++ QueryEscape U⟩ (lit "url") = U := by
  refine ⟨QueryUnescape_QueryEscape U, ?_, ?_⟩
  · intro B
    simp only [imagesLoop]
    split <;> simp
  · simp [Context.Query, URLQuery_url]

/-! ## The domain gate -/

theorem HasSuffix_iff (s suffix : Str) :
    HasSuffix s suffix = true ↔ ∃ pre, s = pre ++ suffix := by
  constructor
  · intro h
    simp only [HasSuffix, Bool.and_eq_true, decide_eq_true_eq, beq_iff_eq] at h
    have h2 := List.take_append_drop (s.length - suffix.length) s
    rw [h.2] at h2
    exact ⟨_, h2.symm⟩
  · rintro ⟨pre, rfl⟩
    simp [HasSuffix]

theorem hostAllowed_iff (host : Str) (domains : List Str) :
    hostAllowed host domains = true ↔
      ∃ d ∈ domains, host = d ∨ ∃ pre, host = pre ++ lit "." ++ d := by
  induction domains with
  | nil => simp [hostAllowed]
  | cons d ds ih =>
    simp only [hostAllowed, List.mem_cons, exists_eq_or_imp]
    by_cases h : host = d ∨ HasSuffix host (lit "." ++ d) = true
    · rw [if_pos h]
      simp only [true_iff]
      left
      rcases h with h | h
      · exact Or.inl h
      · obtain ⟨pre, hp⟩ := (HasSuffix_iff _ _).1 h
        exact Or.inr ⟨pre, by rw [hp, List.append_assoc]⟩
    · rw [if_neg h, ih]
      constructor
      · exact Or.inr
      · rintro (h1 | h1)
        · exfalso
          apply h
          rcases h1 with h1 | ⟨pre, hp⟩
          · exact Or.inl h1
          · exact Or.inr ((HasSuffix_iff _ _).2 ⟨pre, by rw [hp, List.append_assoc]⟩)
        · exact h1

theorem isAllowedDomain_iff (s : Str) :
    isAllowedDomain s = true ↔
      ∃ u, Parse s = .ok u ∧ u.Host ≠ [] ∧
        ∃ d ∈ allowedDomains, u.Host = d ∨ ∃ pre, u.Host = pre ++ lit "." ++ d := by
  unfold isAllowedDomain
  cases hp : Parse s with
  | error e => simp
  | ok u =>
    by_cases hh : u.Host = []
    · simp [hh]
    · simp only [hh, if_false, hostAllowed_iff, Except.ok.injEq, exists_eq_left', ne_eq,
        not_false_eq_true, true_and]

/-- C1: `isAllowedDomain s` is true exactly when `s` parses as a URL whose host is not
empty and equals an allow-listed domain or ends with a dot followed by one; it is false
when parsing fails and when the host is empty.  It is true for
`https://i.pinimg.com/x.jpg`, `https://pinterest.com/a` and `https://sub.pinimg.com/y`,
false for `https://evil.com/x.jpg`, `https://pinimg.com.evil.com/x` and `::::`. -/
theorem isAllowedDomain_spec :
    (∀ s : Str, isAllowedDomain s = true ↔
      ∃ u, Parse s = .ok u ∧ u.Host ≠ [] ∧
        ∃ d ∈ [lit "pinimg.com", lit "i.pinimg.com", lit "pinterest.com"],
          u.Host = d ∨ ∃ pre, u.Host = pre ++ lit "." ++ d) ∧
    (∀ s e, Parse s = .error e → isAllowedDomain s = false) ∧
    (∀ s u, Parse s = .ok u → u.Host = [] → isAllowedDomain s = false) ∧
    isAllowedDomain (lit "https://i.pinimg.com/x.jpg") = true ∧
    isAllowedDomain (lit "https://pinterest.com/a") = true ∧
    isAllowedDomain (lit "https://sub.pinimg.com/y") = true ∧
    isAllowedDomain (lit "https://evil.com/x.jpg") = false ∧
    isAllowedDomain (lit "https://pinimg.com.evil.com/x") = false ∧
    isAllowedDomain (lit "::::") = false := by
  refine ⟨isAllowedDomain_iff, ?_, ?_, by decide!, by decide!, by decide!, by decide!, by decide!,
    by decide!⟩
  · intro s e h
    simp [isAllowedDomain, h]
  · intro s u h hh
    simp [isAllowedDomain, h, hh]

/-! ## The search relay -/

theorem imagesLoop_eq (URL : Str) (images : List Str) (results : List ResultT) :
    imagesLoop URL images results =
      images ++ (results.filter keepResult).map fun r => proxyURL URL r.Images.Orig.URL := by
  induction results generalizing images with
  | nil => simp [imagesLoop]
  | cons r rs ih =>
    by_cases h : keepResult r = true
    · have h2 := h
      simp only [keepResult, Bool.and_eq_true, decide_eq_true_eq] at h2
      simp [imagesLoop, h2.1, h2.2, ih, h, proxyURL]
    · have h2 : ¬ (r.Images.Orig.URL ≠ [] ∧ isAllowedDomain r.Images.Orig.URL = true) := by
        simpa [keepResult] using h
      simp only [imagesLoop, h2, if_false, ih]
      simp [h]

theorem searchHandler_success (w : World) (c : Context) (req : Request) (resp : UpstreamResponse)
    (rd : ResponseData) (hURL : w.URL ≠ [])
    (hreq : w.NewRequest (lit "GET")
      (finalURL (dataParamText (c.Query (lit "q")) (c.Query (lit "bookmark")))) = .ok req)
    (hdo : w.Do (setCSRF req (c.Query (lit "csrftoken"))) = .ok resp)
    (hdec : Decode w.foldName resp.Body {} = .ok rd) :
    searchHandler w c =
      (.HTML 200 "results.html"
        ((rd.ResourceResponse.Data.Results.elems.filter keepResult).map fun r =>
          proxyURL w.URL r.Images.Orig.URL)
        rd.ResourceResponse.Bookmark (c.Query (lit "q")) (c.Query (lit "csrftoken")),
        [setCSRF req (c.Query (lit "csrftoken"))]) := by
  simp only [searchHandler, hURL, if_false, Marshal, hreq, hdo, hdec, imagesLoop_eq,
    List.nil_append, StatusOK]

/-- C2: when the upstream response decodes to `rd`, the images of the page are the
proxy URLs `B ++ "/image?url=" ++ QueryEscape u` of exactly those decoded results whose
image URL `u` is not empty and passes `isAllowedDomain`, in their original order; with
no results the page has no images and the status is 200. -/
theorem searchHandler_images (w : World) (c : Context) (req : Request) (resp : UpstreamResponse)
    (rd : ResponseData) (hURL : w.URL ≠ [])
    (hreq : w.NewRequest (lit "GET")
      (finalURL (dataParamText (c.Query (lit "q")) (c.Query (lit "bookmark")))) = .ok req)
    (hdo : w.Do (setCSRF req (c.Query (lit "csrftoken"))) = .ok resp)
    (hdec : Decode w.foldName resp.Body {} = .ok rd) :
    (searchHandler w c).1.images =
        ((rd.ResourceResponse.Data.Results.elems.filter fun r =>
            decide (r.Images.Orig.URL ≠ []) && isAllowedDomain r.Images.Orig.URL).map fun r =>
          w.URL ++ lit "/image?url=" ++ QueryEscape r.Images.Orig.URL) ∧
      (searchHandler w c).1.status = 200 ∧
      (rd.ResourceResponse.Data.Results.elems = [] → (searchHandler w c).1.images = []) := by
  rw [searchHandler_success w c req resp rd hURL hreq hdo hdec]
  refine ⟨rfl, rfl, ?_⟩
  intro h
  simp [Reply.images, h]

theorem searchHandler_images_witness :
    (searchHandler (exampleWorld (lit "http://localhost:3000")
        (.ok (exampleBody [lit "https://evil.com/a", lit "https://i.pinimg.com/x.jpg", [],
          lit "https://pinterest.com/b c"] none)) (.error ⟨""⟩)) ⟨lit "q=cat"⟩).1.images =
      [lit "http://localhost:3000/image?url=https%3A%2F%2Fi.pinimg.com%2Fx.jpg",
        lit "http://localhost:3000/image?url=https%3A%2F%2Fpinterest.com%2Fb+c"] := by
  have h := searchHandler_images
    (exampleWorld (lit "http://localhost:3000")
      (.ok (exampleBody [lit "https://evil.com/a", lit "https://i.pinimg.com/x.jpg", [],
        lit "https://pinterest.com/b c"] none)) (.error ⟨""⟩))
    ⟨lit "q=cat"⟩ _ _ _ (by decide!) rfl rfl rfl
  rw [h.1]
  decide!

theorem searchHandler_images_path (w : World) (c : Context) (x : Str)
    (hx : x ∈ (searchHandler w c).1.images) :
    ∃ req resp rd, w.URL ≠ [] ∧
      w.NewRequest (lit "GET")
        (finalURL (dataParamText (c.Query (lit "q")) (c.Query (lit "bookmark")))) = .ok req ∧
      w.Do (setCSRF req (c.Query (lit "csrftoken"))) = .ok resp ∧
      Decode w.foldName resp.Body {} = .ok rd := by
  by_cases hURL : w.URL = []
  · simp [searchHandler, hURL, Reply.images] at hx
  · cases hreq : w.NewRequest (lit "GET")
        (finalURL (dataParamText (c.Query (lit "q")) (c.Query (lit "bookmark")))) with
    | error e => simp [searchHandler, hURL, Marshal, hreq, Reply.images] at hx
    | ok req =>
      cases hdo : w.Do (setCSRF req (c.Query (lit "csrftoken"))) with
      | error e => simp [searchHandler, hURL, Marshal, hreq, hdo, Reply.images] at hx
      | ok resp =>
        cases hdec : Decode w.foldName resp.Body {} with
        | error e => simp [searchHandler, hURL, Marshal, hreq, hdo, hdec, Reply.images] at hx
        | ok rd => exact ⟨req, resp, rd, hURL, rfl, hdo, hdec⟩

/-- C3, as stated, fails: with the service at `http://localhost:3000` and the upstream
result `https://i.pinimg.com/x.jpg`, the image of the page is the proxy URL
`http://localhost:3000/image?url=https%3A%2F%2Fi.pinimg.com%2Fx.jpg`, whose host
`localhost:3000` does not pass `isAllowedDomain`. -/
theorem searchHandler_images_not_allowed :
    (searchHandler (exampleWorld (lit "http://localhost:3000")
        (.ok (exampleBody [lit "https://i.pinimg.com/x.jpg"] none)) (.error ⟨""⟩))
      ⟨lit "q=cat"⟩).1.images =
      [lit "http://localhost:3000/image?url=https%3A%2F%2Fi.pinimg.com%2Fx.jpg"] ∧
    isAllowedDomain (lit "http://localhost:3000/image?url=https%3A%2F%2Fi.pinimg.com%2Fx.jpg") =
      false ∧
    ¬ ∀ (w : World) (c : Context), ∀ x ∈ (searchHandler w c).1.images,
        isAllowedDomain x = true := by
  refine ⟨by decide!, by decide!, fun h => ?_⟩
  have h2 := h (exampleWorld (lit "http://localhost:3000")
    (.ok (exampleBody [lit "https://i.pinimg.com/x.jpg"] none)) (.error ⟨""⟩)) ⟨lit "q=cat"⟩
    (lit "http://localhost:3000/image?url=https%3A%2F%2Fi.pinimg.com%2Fx.jpg") (by decide!)
  revert h2
  decide!

/-- C3, amended: every URL in the images of the page is the proxy URL
`B ++ "/image?url=" ++ QueryEscape u` of the image URL `u` of one of the decoded upstream
results, and that `u` is not empty and passes `isAllowedDomain`; `u` is what the query
parameter of the proxy URL decodes to.  Conversely the proxy URL of every decoded
result whose image URL is not empty and allowed is in the images. -/
theorem searchHandler_images_from_allowed (w : World) (c : Context) (x : Str)
    (hx : x ∈ (searchHandler w c).1.images) :
    ∃ req resp rd,
      w.NewRequest (lit "GET")
        (finalURL (dataParamText (c.Query (lit "q")) (c.Query (lit "bookmark")))) = .ok req ∧
      w.Do (setCSRF req (c.Query (lit "csrftoken"))) = .ok resp ∧
      Decode w.foldName resp.Body {} = .ok rd ∧
      (∃ r ∈ rd.ResourceResponse.Data.Results.elems,
        r.Images.Orig.URL ≠ [] ∧ isAllowedDomain r.Images.Orig.URL = true ∧
        x = w.URL ++ lit "/image?url=" ++ QueryEscape r.Images.Orig.URL ∧
        QueryUnescape (QueryEscape r.Images.Orig.URL) = .ok r.Images.Orig.URL) ∧
      ∀ y, y ∈ (searchHandler w c).1.images ↔
        ∃ r ∈ rd.ResourceResponse.Data.Results.elems,
          r.Images.Orig.URL ≠ [] ∧ isAllowedDomain r.Images.Orig.URL = true ∧
          y = w.URL ++ lit "/image?url=" ++ QueryEscape r.Images.Orig.URL := by
  obtain ⟨req, resp, rd, hURL, hreq, hdo, hdec⟩ := searchHandler_images_path w c x hx
  have hs := searchHandler_success w c req resp rd hURL hreq hdo hdec
  have hall : ∀ y, y ∈ (searchHandler w c).1.images ↔
      ∃ r ∈ rd.ResourceResponse.Data.Results.elems,
        r.Images.Orig.URL ≠ [] ∧ isAllowedDomain r.Images.Orig.URL = true ∧
        y = w.URL ++ lit "/image?url=" ++ QueryEscape r.Images.Orig.URL := by
    intro y
    rw [hs]
    simp only [Reply.images, List.mem_map, List.mem_filter, keepResult, Bool.and_eq_true,
      decide_eq_true_eq, proxyURL]
    constructor
    · rintro ⟨r, ⟨hr, h1, h2⟩, rfl⟩
      exact ⟨r, hr, h1, h2, rfl⟩
    · rintro ⟨r, hr, h1, h2, rfl⟩
      exact ⟨r, ⟨hr, h1, h2⟩, rfl⟩
  obtain ⟨r, hr, h1, h2, h3⟩ := (hall x).1 hx
  exact ⟨req, resp, rd, hreq, hdo, hdec,
    ⟨r, hr, h1, h2, h3, QueryUnescape_QueryEscape _⟩, hall⟩

theorem searchHandler_images_from_allowed_witness :
    ∃ req resp rd,
      (exampleWorld (lit "http://localhost:3000")
        (.ok (exampleBody [lit "https://evil.com/a", lit "https://i.pinimg.com/x.jpg"] none))
        (.error ⟨""⟩)).NewRequest (lit "GET")
        (finalURL (dataParamText (Context.Query ⟨lit "q=cat"⟩ (lit "q"))
          (Context.Query ⟨lit "q=cat"⟩ (lit "bookmark")))) = .ok req ∧
      (exampleWorld (lit "http://localhost:3000")
        (.ok (exampleBody [lit "https://evil.com/a", lit "https://i.pinimg.com/x.jpg"] none))
        (.error ⟨""⟩)).Do (setCSRF req (Context.Query ⟨lit "q=cat"⟩ (lit "csrftoken"))) =
        .ok resp ∧
      Decode
        (exampleWorld (lit "http://localhost:3000")
          (.ok (exampleBody [lit "https://evil.com/a", lit "https://i.pinimg.com/x.jpg"] none))
          (.error ⟨""⟩)).foldName resp.Body {} = .ok rd ∧
      (∃ r ∈ rd.ResourceResponse.Data.Results.elems,
        r.Images.Orig.URL ≠ [] ∧ isAllowedDomain r.Images.Orig.URL = true ∧
        lit "http://localhost:3000/image?url=https%3A%2F%2Fi.pinimg.com%2Fx.jpg" =
          (exampleWorld (lit "http://localhost:3000")
            (.ok (exampleBody [lit "https://evil.com/a", lit "https://i.pinimg.com/x.jpg"]
              none)) (.error ⟨""⟩)).URL ++
            lit "/image?url=" ++ QueryEscape r.Images.Orig.URL ∧
        QueryUnescape (QueryEscape r.Images.Orig.URL) = .ok r.Images.Orig.URL) ∧
      ∀ y, y ∈ (searchHandler
          (exampleWorld (lit "http://localhost:3000")
            (.ok (exampleBody [lit "https://evil.com/a", lit "https://i.pinimg.com/x.jpg"]
              none)) (.error ⟨""⟩)) ⟨lit "q=cat"⟩).1.images ↔
        ∃ r ∈ rd.ResourceResponse.Data.Results.elems,
          r.Images.Orig.URL ≠ [] ∧ isAllowedDomain r.Images.Orig.URL = true ∧
          y = (exampleWorld (lit "http://localhost:3000")
            (.ok (exampleBody [lit "https://evil.com/a", lit "https://i.pinimg.com/x.jpg"]
              none)) (.error ⟨""⟩)).URL ++
            lit "/image?url=" ++ QueryEscape r.Images.Orig.URL :=
  searchHandler_images_from_allowed
    (exampleWorld (lit "http://localhost:3000")
      (.ok (exampleBody [lit "https://evil.com/a", lit "https://i.pinimg.com/x.jpg"] none))
      (.error ⟨""⟩))
    ⟨lit "q=cat"⟩ (lit "http://localhost:3000/image?url=https%3A%2F%2Fi.pinimg.com%2Fx.jpg")
    (by decide!)

/-- C7, at the failing input: when the setting `URL` is empty, `searchHandler` returns
without writing to the context and makes no upstream request, so the response is
`200 OK` with an empty body, not a structured error with status 500. -/
theorem searchHandler_config_missing (w : World) (c : Context) (h : w.URL = []) :
    searchHandler w c = (.unwritten, []) ∧ (searchHandler w c).1.status = 200 ∧
      (searchHandler w c).1.status ≠ StatusInternalServerError := by
  simp [searchHandler, h, Reply.status, StatusInternalServerError]

theorem searchHandler_config_missing_witness :
    searchHandler (exampleWorld [] (.ok (exampleBody [] none)) (.error ⟨""⟩)) ⟨lit "q=cat"⟩ =
        (.unwritten, []) ∧
      (searchHandler (exampleWorld [] (.ok (exampleBody [] none)) (.error ⟨""⟩))
        ⟨lit "q=cat"⟩).1.status = 200 ∧
      (searchHandler (exampleWorld [] (.ok (exampleBody [] none)) (.error ⟨""⟩))
        ⟨lit "q=cat"⟩).1.status ≠ StatusInternalServerError :=
  searchHandler_config_missing _ _ rfl

/-- The other failure paths of `searchHandler` (the request cannot be built, the
transport fails, the response does not decode) answer a JSON error with status 500 and
no images. -/
theorem searchHandler_failure_500 (w : World) (c : Context) (hURL : w.URL ≠ []) :
    (∀ e, w.NewRequest (lit "GET")
        (finalURL (dataParamText (c.Query (lit "q")) (c.Query (lit "bookmark")))) = .error e →
      searchHandler w c = (.JSON 500 "Failed to create request", [])) ∧
    (∀ req e, w.NewRequest (lit "GET")
        (finalURL (dataParamText (c.Query (lit "q")) (c.Query (lit "bookmark")))) = .ok req →
      w.Do (setCSRF req (c.Query (lit "csrftoken"))) = .error e →
      searchHandler w c =
        (.JSON 500 "Request failed", [setCSRF req (c.Query (lit "csrftoken"))])) ∧
    (∀ req resp e, w.NewRequest (lit "GET")
        (finalURL (dataParamText (c.Query (lit "q")) (c.Query (lit "bookmark")))) = .ok req →
      w.Do (setCSRF req (c.Query (lit "csrftoken"))) = .ok resp →
      Decode w.foldName resp.Body {} = .error e →
      searchHandler w c =
        (.JSON 500 "Failed to decode response", [setCSRF req (c.Query (lit "csrftoken"))])) := by
  refine ⟨?_, ?_, ?_⟩
  · intro e h
    simp [searchHandler, hURL, Marshal, h, StatusInternalServerError]
  · intro req e h1 h2
    simp [searchHandler, hURL, Marshal, h1, h2, StatusInternalServerError]
  · intro req resp e h1 h2 h3
    simp [searchHandler, hURL, Marshal, h1, h2, h3, StatusInternalServerError]

/-! ## The image proxy -/

theorem proxyImageHandler_calls_allowed (w : World) (c : Context) :
    ∀ x ∈ (proxyImageHandler w c).2, isAllowedDomain x = true := by
  intro x hx
  unfold proxyImageHandler at hx
  by_cases ha : isAllowedDomain (c.Query (lit "url")) = true
  · simp only [ha, Bool.not_true, Bool.false_eq_true, if_false] at hx
    have hcalls : (fetchImage w (c.Query (lit "url"))).2 = [c.Query (lit "url")] := by
      unfold fetchImage
      split
      · rfl
      · split <;> rfl
    split at hx
    · rename_i heq
      rw [heq] at hcalls
      simp only at hcalls
      rw [hcalls] at hx
      simp only [List.mem_singleton] at hx
      rw [hx]; exact ha
    · rename_i heq
      rw [heq] at hcalls
      simp only at hcalls
      rw [hcalls] at hx
      simp only [List.mem_singleton] at hx
      rw [hx]; exact ha
  · simp [ha] at hx

theorem clientDo_head (w : World) (k : Nat) (url : Str) :
    (clientDo w (k + 1) url).2.head? = some url := by
  simp only [clientDo]
  split
  · rfl
  · split
    · rfl
    · split
      · rfl
      · split <;> rfl

theorem proxyImageHandler_first_allowed (w : World) (c : Context) (x : Str)
    (hx : (w.transportURLs (proxyImageHandler w c).2).head? = some x) :
    isAllowedDomain x = true := by
  by_cases ha : isAllowedDomain (c.Query (lit "url")) = true
  · have hcalls : (proxyImageHandler w c).2 = [c.Query (lit "url")] := by
      unfold proxyImageHandler
      simp only [ha, Bool.not_true, Bool.false_eq_true, if_false]
      have hf : (fetchImage w (c.Query (lit "url"))).2 = [c.Query (lit "url")] := by
        unfold fetchImage
        split
        · rfl
        · split <;> rfl
      split
      · rename_i heq
        rw [heq] at hf
        exact hf
      · rename_i heq
        rw [heq] at hf
        exact hf
    have hp : ∃ p, Parse (c.Query (lit "url")) = .ok p := by
      cases hq : Parse (c.Query (lit "url")) with
      | error e => simp [isAllowedDomain, hq] at ha
      | ok p => exact ⟨p, rfl⟩
    obtain ⟨p, hp⟩ := hp
    rw [hcalls] at hx
    simp only [World.transportURLs, List.flatMap_cons, List.flatMap_nil, List.append_nil,
      World.clientGet, hp, clientDo_head, Option.some.injEq] at hx
    rw [← hx]
    exact ha
  · have hcalls : (proxyImageHandler w c).2 = [] := by
      simp [proxyImageHandler, ha]
    rw [hcalls] at hx
    simp [World.transportURLs] at hx

/-- C5, as stated, fails: `http.Get` follows redirects, so when the allowed URL
`https://i.pinimg.com/r` is answered with a redirect to `https://evil.com/x.png`, the
transport receives that URL, which does not pass `isAllowedDomain`, and the handler
sends what it holds with status 200. -/
theorem proxyImageHandler_redirect :
    proxyImageHandler redirectWorld ⟨lit "url=https%3A%2F%2Fi.pinimg.com%2Fr"⟩ =
        (.Data [("Content-Type", "image/png")] 200 "image/png" (lit "PNG"),
          [lit "https://i.pinimg.com/r"]) ∧
      redirectWorld.transportURLs
          (proxyImageHandler redirectWorld ⟨lit "url=https%3A%2F%2Fi.pinimg.com%2Fr"⟩).2 =
        [lit "https://i.pinimg.com/r", lit "https://evil.com/x.png"] ∧
      isAllowedDomain (lit "https://evil.com/x.png") = false ∧
      ¬ ∀ (w : World) (c : Context), ∀ x ∈ w.transportURLs (proxyImageHandler w c).2,
          isAllowedDomain x = true := by
  refine ⟨by decide!, by decide!, by decide!, fun h => ?_⟩
  have h2 := h redirectWorld ⟨lit "url=https%3A%2F%2Fi.pinimg.com%2Fr"⟩
    (lit "https://evil.com/x.png") (by decide!)
  revert h2
  decide!

/-- C5, amended: for every URL `u` that does not pass `isAllowedDomain`,
`proxyImageHandler` answers the JSON error `Domain not allowed` with status 403 (not the
500 of a failed fetch), calls `http.Get` on nothing and hands nothing to the transport,
both on any request whose `url` parameter is `u` and on the request `/image?url=`
followed by `QueryEscape u`.  Whatever the request, every URL that the handler passes
to `http.Get` passes `isAllowedDomain`, and so does the first URL that the transport
receives; the targets of the redirects that `http.Get` follows are not checked. -/
theorem proxyImageHandler_denied (w : World) (u : Str) (h : isAllowedDomain u = false) :
    (∀ c : Context, c.Query (lit "url") = u →
        proxyImageHandler w c = (.JSON 403 "Domain not allowed", []) ∧
          w.transportURLs (proxyImageHandler w c).2 = []) ∧
      proxyImageHandler w ⟨lit "url=" ++ QueryEscape u⟩ =
        (.JSON 403 "Domain not allowed", []) ∧
      StatusForbidden ≠ StatusInternalServerError ∧
      (∀ (w2 : World) (c2 : Context), ∀ x ∈ (proxyImageHandler w2 c2).2,
        isAllowedDomain x = true) ∧
      ∀ (w2 : World) (c2 : Context) (x : Str),
        (w2.transportURLs (proxyImageHandler w2 c2).2).head? = some x →
        isAllowedDomain x = true := by
  have key : ∀ c : Context, c.Query (lit "url") = u →
      proxyImageHandler w c = (.JSON 403 "Domain not allowed", []) := by
    intro c hc
    simp [proxyImageHandler, hc, h, StatusForbidden]
  refine ⟨fun c hc => ⟨key c hc, by rw [key c hc]; rfl⟩, key _ ?_, by decide,
    proxyImageHandler_calls_allowed, proxyImageHandler_first_allowed⟩
  simp [Context.Query, URLQuery_url]

theorem proxyImageHandler_denied_witness :
    (∀ c : Context, c.Query (lit "url") = lit "https://evil.com/x.png" →
        proxyImageHandler redirectWorld c = (.JSON 403 "Domain not allowed", []) ∧
          redirectWorld.transportURLs (proxyImageHandler redirectWorld c).2 = []) ∧
      proxyImageHandler redirectWorld
          ⟨lit "url=" ++ QueryEscape (lit "https://evil.com/x.png")⟩ =
        (.JSON 403 "Domain not allowed", []) ∧
      StatusForbidden ≠ StatusInternalServerError ∧
      (∀ (w2 : World) (c2 : Context), ∀ x ∈ (proxyImageHandler w2 c2).2,
        isAllowedDomain x = true) ∧
      ∀ (w2 : World) (c2 : Context) (x : Str),
        (w2.transportURLs (proxyImageHandler w2 c2).2).head? = some x →
        isAllowedDomain x = true :=
  proxyImageHandler_denied redirectWorld (lit "https://evil.com/x.png") (by decide!)

/-- C6, as stated, fails: when `http.Get` succeeds with status 200 and the read of the
body then breaks off, `fetchImage` returns the error of `io.ReadAll` (with the bytes
read so far) and `proxyImageHandler` answers 500, although the transport call did not
fail and the status is 200. -/
theorem fetchImage_read_error :
    fetchImage
        (exampleWorld (lit "http://localhost:3000") (.error ⟨""⟩)
          (.ok ⟨200, ⟨[0x89, 0x50], some ⟨"unexpected EOF"⟩⟩⟩))
        (lit "https://i.pinimg.com/x.png") =
      (([0x89, 0x50], some ⟨"unexpected EOF"⟩), [lit "https://i.pinimg.com/x.png"]) ∧
    (proxyImageHandler
        (exampleWorld (lit "http://localhost:3000") (.error ⟨""⟩)
          (.ok ⟨200, ⟨[0x89, 0x50], some ⟨"unexpected EOF"⟩⟩⟩))
        ⟨lit "url=https%3A%2F%2Fi.pinimg.com%2Fx.png"⟩).1 =
      .JSON 500 "Failed to fetch image" ∧
    ¬ ∀ (w : World) (u : Str), (fetchImage w u).1.2 ≠ none ↔
        ((∃ e, w.Get u = .error e) ∨ ∃ r, w.Get u = .ok r ∧ r.StatusCode ≠ 200) := by
  refine ⟨by decide!, by decide!, fun h => ?_⟩
  have h2 := (h (exampleWorld (lit "http://localhost:3000") (.error ⟨""⟩)
    (.ok ⟨200, ⟨[0x89, 0x50], some ⟨"unexpected EOF"⟩⟩⟩)) (lit "https://i.pinimg.com/x.png")).1
    (by decide!)
  have hG : (exampleWorld (lit "http://localhost:3000") (.error ⟨""⟩)
      (.ok ⟨200, ⟨[0x89, 0x50], some ⟨"unexpected EOF"⟩⟩⟩)).Get
      (lit "https://i.pinimg.com/x.png") =
      .ok ⟨200, ⟨[0x89, 0x50], some ⟨"unexpected EOF"⟩⟩⟩ := by decide!
  rcases h2 with ⟨e, he⟩ | ⟨r, hr, hs⟩
  · rw [hG] at he
    cases he
  · rw [hG] at hr
    simp only [Except.ok.injEq] at hr
    subst hr
    exact hs rfl

theorem fetchImage_error_iff (w : World) (u : Str) :
    (fetchImage w u).1.2 ≠ none ↔
      ((∃ e, w.Get u = .error e) ∨
        ∃ r, w.Get u = .ok r ∧ (r.StatusCode ≠ 200 ∨ r.Body.err ≠ none)) := by
  unfold fetchImage
  cases hg : w.Get u with
  | error e => simp
  | ok r =>
    by_cases hs : r.StatusCode = 200
    · simp [hs, StatusOK]
    · simp [hs, StatusOK]

/-- C6, amended: `fetchImage` returns an error exactly when `http.Get` fails, the status
is not 200, or reading the body fails.  When the status is 200 and the body is read to
its end, it returns the bytes of the body as they are, and `proxyImageHandler` sends
those bytes with status 200 and `Content-Type: image/png`. -/
theorem fetchImage_spec (w : World) (c : Context) (r : ImageResponse)
    (hallowed : isAllowedDomain (c.Query (lit "url")) = true)
    (hget : w.Get (c.Query (lit "url")) = .ok r) (hstatus : r.StatusCode = 200)
    (hread : r.Body.err = none) :
    fetchImage w (c.Query (lit "url")) = ((r.Body.data, none), [c.Query (lit "url")]) ∧
      proxyImageHandler w c =
        (.Data [("Content-Type", "image/png")] 200 "image/png" r.Body.data,
          [c.Query (lit "url")]) ∧
      ∀ (w2 : World) (u : Str), (fetchImage w2 u).1.2 ≠ none ↔
        ((∃ e, w2.Get u = .error e) ∨
          ∃ r2, w2.Get u = .ok r2 ∧ (r2.StatusCode ≠ 200 ∨ r2.Body.err ≠ none)) := by
  have hf : fetchImage w (c.Query (lit "url")) =
      ((r.Body.data, none), [c.Query (lit "url")]) := by
    simp [fetchImage, hget, hstatus, StatusOK, hread]
  refine ⟨hf, ?_, fetchImage_error_iff⟩
  simp [proxyImageHandler, hallowed, hf, StatusOK]

theorem fetchImage_spec_witness :
    fetchImage
        (exampleWorld (lit "http://localhost:3000") (.error ⟨""⟩)
          (.ok ⟨200, ⟨[0x89, 0x50, 0x4E, 0x47], none⟩⟩))
        (Context.Query ⟨lit "url=https%3A%2F%2Fi.pinimg.com%2Fx.png"⟩ (lit "url")) =
      (([0x89, 0x50, 0x4E, 0x47], none),
        [Context.Query ⟨lit "url=https%3A%2F%2Fi.pinimg.com%2Fx.png"⟩ (lit "url")]) ∧
    proxyImageHandler
        (exampleWorld (lit "http://localhost:3000") (.error ⟨""⟩)
          (.ok ⟨200, ⟨[0x89, 0x50, 0x4E, 0x47], none⟩⟩))
        ⟨lit "url=https%3A%2F%2Fi.pinimg.com%2Fx.png"⟩ =
      (.Data [("Content-Type", "image/png")] 200 "image/png" [0x89, 0x50, 0x4E, 0x47],
        [Context.Query ⟨lit "url=https%3A%2F%2Fi.pinimg.com%2Fx.png"⟩ (lit "url")]) ∧
    ∀ (w2 : World) (u : Str), (fetchImage w2 u).1.2 ≠ none ↔
      ((∃ e, w2.Get u = .error e) ∨
        ∃ r2, w2.Get u = .ok r2 ∧ (r2.StatusCode ≠ 200 ∨ r2.Body.err ≠ none)) :=
  fetchImage_spec
    (exampleWorld (lit "http://localhost:3000") (.error ⟨""⟩)
      (.ok ⟨200, ⟨[0x89, 0x50, 0x4E, 0x47], none⟩⟩))
    ⟨lit "url=https%3A%2F%2Fi.pinimg.com%2Fx.png"⟩ ⟨200, ⟨[0x89, 0x50, 0x4E, 0x47], none⟩⟩
    (by decide!) (by decide!) rfl rfl

/-! ## The pagination token -/

theorem decodeResourceResponse_bookmark (foldName : Str → Str)
    (members : List (Str × Json)) (cur out : ResourceResponseT)
    (hno : (members.any fun kv =>
      findField foldName [lit "data", lit "bookmark"] kv.1 == some 1) = false)
    (h : decodeResourceResponse foldName cur (.object members) = .ok out) :
    out.Bookmark = cur.Bookmark := by
  simp only [decodeResourceResponse, decodeStruct] at h
  induction members generalizing cur with
  | nil =>
    simp only [decodeMembers, Except.ok.injEq] at h
    rw [h]
  | cons kv rest ih =>
    obtain ⟨key, value⟩ := kv
    simp only [List.any_cons, Bool.or_eq_false_iff, beq_eq_false_iff_ne, ne_eq] at hno
    simp only [decodeMembers] at h
    split at h
    · exact ih cur hno.2 h
    · rename_i i hi
      split at h
      · cases h
      · rename_i cur2 hst
        have hb : cur2.Bookmark = cur.Bookmark := by
          match i, hi, hst with
          | 0, _, hst =>
            simp only [Except.map] at hst
            split at hst
            · cases hst
            · cases hst; rfl
          | 1, hi, _ => exact absurd hi hno.1
          | _ + 2, _, hst => cases hst; rfl
        rw [← hb]
        exact ih cur2 hno.2 h

theorem Decode_no_bookmark (foldName : Str → Str) (v : Json) (rd : ResponseData)
    (hno : mentionsBookmark foldName v = false)
    (h : Decode foldName (.ok v) {} = .ok rd) : rd.ResourceResponse.Bookmark = [] := by
  simp only [Decode] at h
  cases v with
  | object members =>
    simp only [decodeStruct] at h
    simp only [mentionsBookmark] at hno
    have key : ∀ (cur : ResponseData), cur.ResourceResponse.Bookmark = [] →
        decodeMembers foldName [lit "resource_response"]
          (fun _ cur v =>
            (decodeResourceResponse foldName cur.ResourceResponse v).map fun o =>
              { cur with ResourceResponse := o }) cur members = .ok rd →
        rd.ResourceResponse.Bookmark = [] := by
      clear h
      induction members with
      | nil =>
        intro cur hc h
        simp only [decodeMembers, Except.ok.injEq] at h
        rw [← h]; exact hc
      | cons kv rest ih =>
        obtain ⟨key, value⟩ := kv
        simp only [List.any_cons, Bool.or_eq_false_iff, Bool.and_eq_false_iff] at hno
        intro cur hc h
        simp only [decodeMembers] at h
        split at h
        · exact ih hno.2 cur hc h
        · rename_i i hi
          split at h
          · cases h
          · rename_i cur2 hst
            refine ih hno.2 cur2 ?_ h
            simp only [Except.map] at hst
            split at hst
            · cases hst
            · rename_i o ho
              cases hst
              show o.Bookmark = []
              rcases hno.1 with hf | hf
              · simp [hi] at hf
              · cases value with
                | object inner =>
                  simp only at hf
                  rw [decodeResourceResponse_bookmark foldName inner _ o hf ho, hc]
                | null =>
                  simp only [decodeResourceResponse, decodeStruct, Except.ok.injEq] at ho
                  rw [← ho, hc]
                | bool b => simp [decodeResourceResponse, decodeStruct] at ho
                | number t => simp [decodeResourceResponse, decodeStruct] at ho
                | string t => simp [decodeResourceResponse, decodeStruct] at ho
                | array t => simp [decodeResourceResponse, decodeStruct] at ho
    exact key {} rfl h
  | null =>
    simp only [decodeStruct, Except.ok.injEq] at h
    rw [← h]
  | bool b => simp [decodeStruct] at h
  | number t => simp [decodeStruct] at h
  | string t => simp [decodeStruct] at h
  | array t => simp [decodeStruct] at h

theorem decodeMembers_append_ok {α : Type} (foldName : Str → Str) (names : List Str)
    (store : Nat → α → Json → Except NetError α) (xs ys : List (Str × Json)) (cur out : α)
    (h : decodeMembers foldName names store cur (xs ++ ys) = .ok out) :
    ∃ mid, decodeMembers foldName names store cur xs = .ok mid ∧
      decodeMembers foldName names store mid ys = .ok out := by
  induction xs generalizing cur with
  | nil => exact ⟨cur, rfl, h⟩
  | cons kv xs ih =>
    obtain ⟨key, value⟩ := kv
    rw [List.cons_append, decodeMembers.eq_def] at h
    rw [decodeMembers.eq_def]
    simp only at h ⊢
    cases hf : findField foldName names key with
    | none =>
      simp only [hf] at h ⊢
      exact ih cur h
    | some i =>
      simp only [hf] at h ⊢
      cases hst : store i cur value with
      | error e => simp only [hst] at h; cases h
      | ok cur2 =>
        simp only [hst] at h ⊢
        exact ih cur2 h

theorem decodeMembers_skip {α : Type} (foldName : Str → Str) (names : List Str)
    (store : Nat → α → Json → Except NetError α) (ys : List (Str × Json)) (cur : α)
    (h : ∀ kv ∈ ys, findField foldName names kv.1 = none) :
    decodeMembers foldName names store cur ys = .ok cur := by
  induction ys with
  | nil => rfl
  | cons kv ys ih =>
    obtain ⟨key, value⟩ := kv
    have hk : findField foldName names key = none := h (key, value) (List.mem_cons_self _ _)
    simp only [decodeMembers, hk]
    exact ih fun kv hkv => h kv (List.mem_cons_of_mem _ hkv)

theorem decodeResourceResponse_bookmark_set (foldName : Str → Str)
    (ipre ipost : List (Str × Json)) (kb b : Str) (cur out : ResourceResponseT)
    (hkb : findField foldName [lit "data", lit "bookmark"] kb = some 1)
    (hipost : ∀ kv ∈ ipost, findField foldName [lit "data", lit "bookmark"] kv.1 ≠ some 1)
    (h : decodeResourceResponse foldName cur (.object (ipre ++ (kb, .string b) :: ipost)) =
      .ok out) :
    out.Bookmark = b := by
  have h0 := h
  simp only [decodeResourceResponse, decodeStruct] at h0
  obtain ⟨mid, _, h2⟩ := decodeMembers_append_ok _ _ _ _ _ _ _ h0
  simp only [decodeMembers, hkb, decodeString, Except.map] at h2
  have hno : (ipost.any fun kv =>
      findField foldName [lit "data", lit "bookmark"] kv.1 == some 1) = false := by
    rw [List.any_eq_false]
    intro kv hkv
    simpa using hipost kv hkv
  have h3 : decodeResourceResponse foldName { mid with Bookmark := b } (.object ipost) =
      .ok out := by
    simp only [decodeResourceResponse, decodeStruct]
    exact h2
  exact decodeResourceResponse_bookmark foldName ipost _ out hno h3

theorem Decode_bookmark (foldName : Str → Str) (pre post ipre ipost : List (Str × Json))
    (k kb b : Str) (rd : ResponseData)
    (hk : (findField foldName [lit "resource_response"] k).isSome = true)
    (hpost : ∀ kv ∈ post, findField foldName [lit "resource_response"] kv.1 = none)
    (hkb : findField foldName [lit "data", lit "bookmark"] kb = some 1)
    (hipost : ∀ kv ∈ ipost, findField foldName [lit "data", lit "bookmark"] kv.1 ≠ some 1)
    (h : Decode foldName
      (.ok (.object (pre ++ (k, .object (ipre ++ (kb, .string b) :: ipost)) :: post))) {} =
      .ok rd) :
    rd.ResourceResponse.Bookmark = b := by
  simp only [Decode, decodeStruct] at h
  obtain ⟨mid, _, h2⟩ := decodeMembers_append_ok _ _ _ _ _ _ _ h
  obtain ⟨i, hi⟩ := Option.isSome_iff_exists.1 hk
  simp only [decodeMembers, hi] at h2
  split at h2
  · cases h2
  · rename_i cur2 hst
    rw [decodeMembers_skip _ _ _ post cur2 hpost] at h2
    simp only [Except.ok.injEq] at h2
    subst h2
    simp only [Except.map] at hst
    split at hst
    · cases hst
    · rename_i o ho
      cases hst
      exact decodeResourceResponse_bookmark_set foldName ipre ipost kb b _ o hkb hipost ho

/-- C9: when the upstream response decodes to `rd`, the `Bookmark` of the page is the
decoded `resource_response.bookmark` as it is; it is the empty string when the upstream
response has no `bookmark` member in its `resource_response`; and when the
`resource_response` of the upstream JSON has the string `b` as its (last) `bookmark`
member, the `Bookmark` of the page is `b`. -/
theorem searchHandler_bookmark (w : World) (c : Context) (req : Request)
    (resp : UpstreamResponse) (v : Json) (rd : ResponseData) (hURL : w.URL ≠ [])
    (hreq : w.NewRequest (lit "GET")
      (finalURL (dataParamText (c.Query (lit "q")) (c.Query (lit "bookmark")))) = .ok req)
    (hdo : w.Do (setCSRF req (c.Query (lit "csrftoken"))) = .ok resp)
    (hbody : resp.Body = .ok v)
    (hdec : Decode w.foldName (.ok v) {} = .ok rd) :
    (∃ images,
      (searchHandler w c).1 =
        .HTML 200 "results.html" images rd.ResourceResponse.Bookmark (c.Query (lit "q"))
          (c.Query (lit "csrftoken"))) ∧
      (mentionsBookmark w.foldName v = false →
        ∃ images,
          (searchHandler w c).1 =
            .HTML 200 "results.html" images [] (c.Query (lit "q"))
              (c.Query (lit "csrftoken"))) ∧
      ∀ (pre post ipre ipost : List (Str × Json)) (k kb b : Str),
        v = .object (pre ++ (k, .object (ipre ++ (kb, .string b) :: ipost)) :: post) →
        (findField w.foldName [lit "resource_response"] k).isSome = true →
        (∀ kv ∈ post, findField w.foldName [lit "resource_response"] kv.1 = none) →
        findField w.foldName [lit "data", lit "bookmark"] kb = some 1 →
        (∀ kv ∈ ipost, findField w.foldName [lit "data", lit "bookmark"] kv.1 ≠ some 1) →
        ∃ images,
          (searchHandler w c).1 =
            .HTML 200 "results.html" images b (c.Query (lit "q"))
              (c.Query (lit "csrftoken")) := by
  have hs := searchHandler_success w c req resp rd hURL hreq hdo (by rw [hbody]; exact hdec)
  refine ⟨⟨_, by rw [hs]⟩, fun hno => ?_, ?_⟩
  · have hb := Decode_no_bookmark w.foldName v rd hno hdec
    exact ⟨_, by rw [hs, hb]⟩
  · intro pre post ipre ipost k kb b hv hk hpost hkb hipost
    have hb := Decode_bookmark w.foldName pre post ipre ipost k kb b rd hk hpost hkb hipost
      (by rw [← hv]; exact hdec)
    exact ⟨_, by rw [hs, hb]⟩

theorem searchHandler_bookmark_witness :
    (∃ images,
      (searchHandler
        (exampleWorld (lit "http://localhost:3000")
          (.ok (exampleBody [lit "https://i.pinimg.com/x.jpg"] (some (lit "next123"))))
          (.error ⟨""⟩))
        ⟨lit "q=cat&bookmark=abc"⟩).1 =
        .HTML 200 "results.html" images (lit "next123") (lit "cat") []) ∧
      (∃ images,
        (searchHandler
          (exampleWorld (lit "http://localhost:3000")
            (.ok (.object [(lit "RESOURCE_RESPONSE",
              .object [(lit "boo\u212Amark", .string (lit "kelvin"))])]))
            (.error ⟨""⟩))
          ⟨lit "q=cat&bookmark=abc"⟩).1 =
          .HTML 200 "results.html" images (lit "kelvin") (lit "cat") []) ∧
      ∃ images,
        (searchHandler
          (exampleWorld (lit "http://localhost:3000")
            (.ok (exampleBody [lit "https://i.pinimg.com/x.jpg"] none)) (.error ⟨""⟩))
          ⟨lit "q=cat&bookmark=abc"⟩).1 =
          .HTML 200 "results.html" images [] (lit "cat") [] :=
  ⟨(searchHandler_bookmark
      (exampleWorld (lit "http://localhost:3000")
        (.ok (exampleBody [lit "https://i.pinimg.com/x.jpg"] (some (lit "next123"))))
        (.error ⟨""⟩))
      ⟨lit "q=cat&bookmark=abc"⟩ _ _
      (exampleBody [lit "https://i.pinimg.com/x.jpg"] (some (lit "next123")))
      ⟨⟨⟨⟨[⟨⟨⟨lit "https://i.pinimg.com/x.jpg"⟩⟩⟩], []⟩⟩, lit "next123"⟩⟩
      (by decide!) rfl rfl rfl rfl).2.2
      [] [] [(lit "data", .object [(lit "results",
        .array [.object [(lit "images",
          .object [(lit "orig", .object [(lit "url", .string (lit "https://i.pinimg.com/x.jpg"))])])]])])]
      [] (lit "resource_response") (lit "bookmark") (lit "next123") rfl (by decide!)
      (by simp) (by decide!) (by simp),
    (searchHandler_bookmark
      (exampleWorld (lit "http://localhost:3000")
        (.ok (.object [(lit "RESOURCE_RESPONSE",
          .object [(lit "boo\u212Amark", .string (lit "kelvin"))])]))
        (.error ⟨""⟩))
      ⟨lit "q=cat&bookmark=abc"⟩ _ _
      (.object [(lit "RESOURCE_RESPONSE", .object [(lit "boo\u212Amark", .string (lit "kelvin"))])])
      ⟨⟨⟨⟨[], []⟩⟩, lit "kelvin"⟩⟩
      (by decide!) rfl rfl rfl rfl).2.2
      [] [] [] [] (lit "RESOURCE_RESPONSE") (lit "boo\u212Amark") (lit "kelvin") rfl (by decide!)
      (by simp) (by decide!) (by simp),
    (searchHandler_bookmark
      (exampleWorld (lit "http://localhost:3000")
        (.ok (exampleBody [lit "https://i.pinimg.com/x.jpg"] none)) (.error ⟨""⟩))
      ⟨lit "q=cat&bookmark=abc"⟩ _ _ (exampleBody [lit "https://i.pinimg.com/x.jpg"] none)
      ⟨⟨⟨⟨[⟨⟨⟨lit "https://i.pinimg.com/x.jpg"⟩⟩⟩], []⟩⟩, []⟩⟩
      (by decide!) rfl rfl rfl rfl).2.1 (by decide!)⟩

/-! ## A host with a port -/

theorem Index_singleton_not_mem (c : Byte) (a : Str) (h : c ∉ a) : Index a [c] = none := by
  induction a with
  | nil => simp [Index]
  | cons x a ih =>
    simp only [List.mem_cons, not_or] at h
    have hx : (x == c) = false := by simpa using fun e => h.1 e.symm
    simp [Index, HasPrefix_singleton, hx, ih h.2]

theorem Index_singleton_append (c : Byte) (a b : Str) (h : c ∉ a) :
    Index (a ++ c :: b) [c] = some a.length := by
  induction a with
  | nil => simp [Index, HasPrefix]
  | cons x a ih =>
    simp only [List.mem_cons, not_or] at h
    have hx : (x == c) = false := by simpa using fun e => h.1 e.symm
    simp [Index, HasPrefix_singleton, hx, ih h.2]

theorem LastIndexByte_not_mem (c : Byte) (a : Str) (h : c ∉ a) : LastIndexByte a c = none := by
  induction a with
  | nil => simp [LastIndexByte]
  | cons x a ih =>
    simp only [List.mem_cons, not_or] at h
    have hx : ¬ x = c := fun e => h.1 e.symm
    simp [LastIndexByte, ih h.2, hx]

theorem LastIndexByte_append_lt (c : Byte) (a b : Str) (i : Nat) (h : c ∉ b)
    (hi : LastIndexByte (a ++ b) c = some i) : i < a.length := by
  induction a generalizing i with
  | nil =>
    rw [List.nil_append, LastIndexByte_not_mem c b h] at hi
    cases hi
  | cons x a ih =>
    rw [List.cons_append, LastIndexByte] at hi
    cases hl : LastIndexByte (a ++ b) c with
    | some j =>
      rw [hl] at hi
      simp only [Option.some.injEq] at hi
      have := ih j hl
      simp only [List.length_cons]
      omega
    | none =>
      rw [hl] at hi
      simp only at hi
      split at hi
      · simp only [Option.some.injEq] at hi
        simp only [List.length_cons]
        omega
      · cases hi

theorem getScheme_https (rest : Str) :
    getScheme (lit "https:" ++ rest) = .ok (lit "https", rest) := rfl

theorem digit_facts : ∀ b : Byte, ch '0' ≤ b ∧ b ≤ ch '9' →
    b ≠ ch '%' ∧ b ≠ ch '+' ∧ b ≠ ch 'm' ∧ b ≠ ch ']' ∧ b ≠ ch '@' ∧ b ≠ ch '/' ∧
      b ≠ ch '?' ∧ b ≠ ch '#' := by
  decide!

theorem unescapeWrite_port (mode : encoding) (p : Str) (hp : isDigits p) :
    unescapeWrite mode (ch ':' :: p) = ch ':' :: p := by
  have hd : unescapeWrite mode p = p := by
    induction p with
    | nil => rfl
    | cons b p ih =>
      have hb := digit_facts b (hp b (List.mem_cons_self _ _))
      rw [unescapeWrite_cons_ne _ _ _ hb.1, if_neg hb.2.1,
        ih fun x hx => hp x (List.mem_cons_of_mem _ hx)]
  rw [unescapeWrite_cons_ne _ _ _ (by decide), if_neg (by decide), hd]

theorem unescapeCheck_pct_error (mode : encoding) (h1 : Byte) (rest : Str)
    (hh : ishex h1 = false) : ∀ r, unescapeCheck mode (ch '%' :: h1 :: rest) ≠ .ok r := by
  intro r
  cases rest with
  | nil => simp [unescapeCheck]
  | cons h2 rest => simp [unescapeCheck, hh]

theorem unescapeCheck_pct_error2 (mode : encoding) (h1 h2 : Byte) (rest : Str)
    (hh : ishex h2 = false) : ∀ r, unescapeCheck mode (ch '%' :: h1 :: h2 :: rest) ≠ .ok r := by
  intro r
  simp [unescapeCheck, hh]

theorem unescapeWrite_suffix (mode : encoding) (p : Str) (hp : isDigits p) :
    ∀ (n : Nat) (x : Str), x.length ≤ n →
      unescapeCheck mode (x ++ ch ':' :: p) = .ok () →
      ∃ y, unescapeWrite mode (x ++ ch ':' :: p) = y ++ ch ':' :: p := by
  intro n
  induction n with
  | zero =>
    intro x hx _
    have : x = [] := List.length_eq_zero.1 (Nat.le_zero.1 hx)
    subst this
    exact ⟨[], by rw [List.nil_append, unescapeWrite_port mode p hp]⟩
  | succ n ih =>
    intro x hx hc
    match x, hx, hc with
    | [], _, _ =>
      exact ⟨[], by rw [List.nil_append, unescapeWrite_port mode p hp]⟩
    | c :: x, hx, hc =>
      by_cases hpc : c = ch '%'
      · subst hpc
        match x, hx, hc with
        | [], _, hc =>
          exact absurd hc (unescapeCheck_pct_error mode (ch ':') p (by decide) ())
        | [h1], _, hc =>
          exact absurd hc (unescapeCheck_pct_error2 mode h1 (ch ':') p (by decide) ())
        | h1 :: h2 :: x, hx, hc =>
          simp only [List.cons_append, unescapeCheck, if_true] at hc
          have hc2 : unescapeCheck mode (x ++ ch ':' :: p) = .ok () := by
            split at hc
            · cases hc
            · split at hc
              · cases hc
              · split at hc
                · cases hc
                · exact hc
          simp only [List.length_cons] at hx
          obtain ⟨y, hy⟩ := ih x (by omega) hc2
          refine ⟨(unhex h1 * 16 + unhex h2) :: y, ?_⟩
          simp only [List.cons_append, unescapeWrite, if_true]
          exact congrArg _ hy
      · rw [List.cons_append, unescapeCheck_cons_ne _ _ _ hpc] at hc
        have hc2 : unescapeCheck mode (x ++ ch ':' :: p) = .ok () := by
          split at hc
          · exact hc
          · split at hc
            · cases hc
            · exact hc
        simp only [List.length_cons] at hx
        obtain ⟨y, hy⟩ := ih x (by omega) hc2
        rw [List.cons_append, unescapeWrite_cons_ne _ _ _ hpc, hy]
        split
        · exact ⟨_ :: y, rfl⟩
        · exact ⟨c :: y, rfl⟩

theorem unescape_suffix (mode : encoding) (p x r : Str) (hp : isDigits p)
    (h : unescape (x ++ ch ':' :: p) mode = .ok r) : ∃ y, r = y ++ ch ':' :: p := by
  unfold unescape at h
  split at h
  · cases h
  · rename_i hc
    simp only [Except.ok.injEq] at h
    obtain ⟨y, hy⟩ := unescapeWrite_suffix mode p hp x.length x (Nat.le_refl _) hc
    exact ⟨y, by rw [← h, hy]⟩

theorem parseHost_port (d p host : Str) (hp : isDigits p)
    (h : parseHost (d ++ ch ':' :: p) = .ok host) : ∃ y, host = y ++ ch ':' :: p := by
  have hbr : ch ']' ∉ ch ':' :: p := by
    intro hm
    rcases List.mem_cons.1 hm with hm | hm
    · revert hm; decide
    · exact (digit_facts _ (hp _ hm)).2.2.2.1 rfl
  unfold parseHost at h
  split at h
  · split at h
    · cases h
    · rename_i i hi
      have hlt := LastIndexByte_append_lt _ _ _ _ hbr hi
      split at h
      · cases h
      · split at h
        · split at h
          · cases h
          · split at h
            · cases h
            · split at h
              · cases h
              · rename_i h3
                rw [List.drop_append_of_le_length (Nat.le_of_lt hlt)] at h3
                obtain ⟨y, hy⟩ := unescape_suffix _ _ _ _ hp h3
                simp only [Except.ok.injEq] at h
                exact ⟨_, by rw [← h, hy, ← List.append_assoc]⟩
        · exact unescape_suffix _ _ _ _ hp h
  · split at h
    · split at h
      · cases h
      · exact unescape_suffix _ _ _ _ hp h
    · exact unescape_suffix _ _ _ _ hp h

theorem parseAuthority_port (d p host : Str) (user : Option Userinfo) (hp : isDigits p)
    (hd : ch '@' ∉ d) (h : parseAuthority (d ++ ch ':' :: p) = .ok (user, host)) :
    ∃ y, host = y ++ ch ':' :: p := by
  have hat : ch '@' ∉ d ++ ch ':' :: p := by
    intro hm
    rcases List.mem_append.1 hm with hm | hm
    · exact hd hm
    · rcases List.mem_cons.1 hm with hm | hm
      · revert hm; decide
      · exact (digit_facts _ (hp _ hm)).2.2.2.2.1 rfl
  unfold parseAuthority at h
  simp only [LastIndexByte_not_mem _ _ hat] at h
  split at h
  · cases h
  · rename_i host2 hh
    simp only [Except.ok.injEq, Prod.mk.injEq] at h
    rw [← h.2]
    exact parseHost_port d p host2 hp hh

theorem Cut_fst_shape (c : Byte) (path : Str) (hc : c ≠ ch '/') (h : pathShape path) :
    pathShape (Cut path [c]).1 := by
  rcases h with rfl | ⟨t, rfl⟩
  · left; simp [Cut]
  · right
    have hx : (ch '/' == c) = false := by simpa using fun e => hc e.symm
    rw [Cut, HasPrefix_singleton, hx]
    by_cases ht : (Cut t [c]).2.2 = true
    · exact ⟨(Cut t [c]).1, by simp [ht]⟩
    · exact ⟨t, by simp [ht]⟩

theorem parse_eq (rawURL : Str) :
    parse rawURL =
      if stringContainsCTLByte rawURL then
        .error (.other "net/url: invalid control character in URL")
      else if rawURL = lit "*" then .ok { Path := lit "*" }
      else
        match getScheme rawURL with
        | .error e => .error e
        | .ok (scheme, rest0) =>
          parseTail
            { Scheme := ToLower scheme
              ForceQuery := HasSuffix rest0 (lit "?") && CountByte rest0 (ch '?') == 1
              RawQuery :=
                if HasSuffix rest0 (lit "?") && CountByte rest0 (ch '?') == 1 then []
                else (Cut rest0 (lit "?")).2.1 }
            (restOf rest0) := rfl

theorem restOf_shape (auth path1 : Str) (hq : ch '?' ∉ auth) (hs : pathShape path1) :
    ∃ path2, restOf (lit "//" ++ auth ++ path1) = lit "//" ++ auth ++ path2 ∧
      pathShape path2 := by
  have hq2 : ch '?' ∉ lit "//" ++ auth := by
    intro hm
    rcases List.mem_append.1 hm with hm | hm
    · revert hm; decide
    · exact hq hm
  unfold restOf
  split
  · rename_i hf
    simp only [Bool.and_eq_true] at hf
    have hne : path1 ≠ [] := by
      rintro rfl
      obtain ⟨pre, hpre⟩ := (HasSuffix_iff _ _).1 hf.1
      apply hq2
      rw [List.append_nil] at hpre
      rw [hpre]
      simp [show lit "?" = [ch '?'] from rfl]
    refine ⟨path1.dropLast, ?_, ?_⟩
    · rw [← List.dropLast_eq_take, List.dropLast_append_of_ne_nil _ hne]
    · rcases hs with rfl | ⟨t, rfl⟩
      · exact absurd rfl hne
      · cases t with
        | nil => left; rfl
        | cons a t => right; exact ⟨_, rfl⟩
  · refine ⟨(Cut path1 [ch '?']).1, ?_, Cut_fst_shape _ _ (by decide) hs⟩
    rw [show lit "?" = [ch '?'] from rfl, Cut_singleton_append _ _ _ hq2]

theorem setPath_Host (u v : URL) (p : Str) (h : setPath u p = .ok v) : v.Host = u.Host := by
  unfold setPath at h
  split at h
  · cases h
  · simp only [Except.ok.injEq] at h
    rw [← h]

theorem setFragment_Host (u v : URL) (f : Str) (h : setFragment u f = .ok v) :
    v.Host = u.Host := by
  unfold setFragment at h
  split at h
  · cases h
  · simp only [Except.ok.injEq] at h
    rw [← h]

theorem parseTail_authority (url u : URL) (auth path2 : Str) (hsch : url.Scheme ≠ [])
    (hsl : ch '/' ∉ auth) (hs : pathShape path2)
    (h : parseTail url (lit "//" ++ auth ++ path2) = .ok u) :
    ∃ user, parseAuthority auth = .ok (user, u.Host) := by
  have h1 : HasPrefix (lit "//" ++ auth ++ path2) (lit "/") = true := rfl
  have h2 : HasPrefix (lit "//" ++ auth ++ path2) (lit "//") = true := by
    rw [show lit "//" = [ch '/', ch '/'] from rfl]
    simp [HasPrefix, HasPrefix_nil]
  have h3 : (lit "//" ++ auth ++ path2).drop 2 = auth ++ path2 := rfl
  have h4 : (match Index (auth ++ path2) (lit "/") with
      | some i => (auth ++ path2).take i
      | none => auth ++ path2) = auth := by
    rcases hs with rfl | ⟨t, rfl⟩
    · rw [List.append_nil, show lit "/" = [ch '/'] from rfl, Index_singleton_not_mem _ _ hsl]
    · rw [show lit "/" = [ch '/'] from rfl, Index_singleton_append _ _ _ hsl]
      simp
  unfold parseTail at h
  simp only [h1, h2, h3, h4, hsch, Bool.not_true, Bool.false_eq_true, false_and, if_false,
    ne_eq, not_false_eq_true, true_or, and_self, if_true] at h
  split at h
  · cases h
  · rename_i user host hpa
    exact ⟨user, by rw [setPath_Host _ _ _ h]; exact hpa⟩

theorem parse_https_Host (auth path1 : Str) (u : URL) (hsl : ch '/' ∉ auth)
    (hq : ch '?' ∉ auth) (hs : pathShape path1)
    (h : parse (lit "https://" ++ auth ++ path1) = .ok u) :
    ∃ user, parseAuthority auth = .ok (user, u.Host) := by
  have hraw : lit "https://" ++ auth ++ path1 = lit "https:" ++ (lit "//" ++ auth ++ path1) :=
    rfl
  have hstar : lit "https://" ++ auth ++ path1 ≠ lit "*" := by
    intro he
    have h1 : (lit "https://" ++ auth ++ path1).head? = some (ch 'h') := rfl
    rw [he] at h1
    revert h1
    decide
  rw [parse_eq, if_neg hstar] at h
  split at h
  · cases h
  · rw [hraw, getScheme_https] at h
    simp only at h
    obtain ⟨path2, hr, hs2⟩ := restOf_shape auth path1 hq hs
    rw [hr] at h
    refine parseTail_authority _ u auth path2 ?_ hsl hs2 h
    show ToLower (lit "https") ≠ []
    decide

theorem hostAllowed_port (y p : Str) (hp : isDigits p) :
    hostAllowed (y ++ ch ':' :: p) allowedDomains = false := by
  cases hh : hostAllowed (y ++ ch ':' :: p) allowedDomains with
  | false => rfl
  | true =>
    exfalso
    obtain ⟨d, hd, hd2⟩ := (hostAllowed_iff _ _).1 hh
    have hm : d.getLast? = some (ch 'm') := by
      simp only [allowedDomains, List.mem_cons, List.mem_singleton, List.not_mem_nil,
        or_false] at hd
      rcases hd with rfl | rfl | rfl <;> decide
    have hlast : (y ++ ch ':' :: p).getLast? = some (ch 'm') := by
      rcases hd2 with h | ⟨pre, h⟩
      · rw [h, hm]
      · rw [h, List.getLast?_append, hm]
        rfl
    rw [List.getLast?_append, List.getLast?_eq_getLast _ (List.cons_ne_nil _ _)] at hlast
    simp only [Option.or_some, Option.some.injEq] at hlast
    have hmem : ch 'm' ∈ ch ':' :: p := by
      rw [← hlast]
      exact List.getLast_mem _
    rcases List.mem_cons.1 hmem with hmem | hmem
    · revert hmem; decide
    · exact (digit_facts _ (hp _ hmem)).2.2.1 rfl

theorem isAllowedDomain_port_general (d p path : Str)
    (hd : ∀ b ∈ d, b ≠ ch '/' ∧ b ≠ ch '?' ∧ b ≠ ch '#' ∧ b ≠ ch '@')
    (hp : isDigits p) (hpath : pathShape path) :
    isAllowedDomain (lit "https://" ++ d ++ lit ":" ++ p ++ path) = false := by
  have hauth : ∀ c : Byte, (c = ch '/' ∨ c = ch '?' ∨ c = ch '#' ∨ c = ch '@') →
      c ∉ d ++ ch ':' :: p := by
    intro c hc hm
    rcases List.mem_append.1 hm with hm | hm
    · have := hd c hm
      rcases hc with hc | hc | hc | hc
      · exact this.1 hc
      · exact this.2.1 hc
      · exact this.2.2.1 hc
      · exact this.2.2.2 hc
    · rcases List.mem_cons.1 hm with hm | hm
      · subst hm
        revert hc
        decide
      · have := digit_facts c (hp c hm)
        rcases hc with hc | hc | hc | hc
        · exact this.2.2.2.2.2.1 hc
        · exact this.2.2.2.2.2.2.1 hc
        · exact this.2.2.2.2.2.2.2 hc
        · exact this.2.2.2.2.1 hc
  have hs : lit "https://" ++ d ++ lit ":" ++ p ++ path =
      (lit "https://" ++ (d ++ ch ':' :: p)) ++ path := by
    rw [show lit ":" = [ch ':'] from rfl]
    simp only [List.append_assoc, List.singleton_append]
  have hhash : ch '#' ∉ lit "https://" ++ (d ++ ch ':' :: p) := by
    intro hm
    rcases List.mem_append.1 hm with hm | hm
    · revert hm; decide
    · exact hauth _ (Or.inr (Or.inr (Or.inl rfl))) hm
  unfold isAllowedDomain Parse
  rw [hs, show lit "#" = [ch '#'] from rfl, Cut_singleton_append _ _ _ hhash]
  simp only
  have hs1 := Cut_fst_shape (ch '#') path (by decide) hpath
  cases hpar : parse (lit "https://" ++ (d ++ ch ':' :: p) ++ (Cut path [ch '#']).1) with
  | error e => rfl
  | ok url =>
    obtain ⟨user, hu⟩ := parse_https_Host _ _ url (hauth _ (Or.inl rfl))
      (hauth _ (Or.inr (Or.inl rfl))) hs1 hpar
    obtain ⟨y, hy⟩ := parseAuthority_port d p url.Host user hp
      (fun hm => (hd _ hm).2.2.2 rfl) hu
    simp only
    by_cases hf : (Cut path [ch '#']).2.1 = []
    · simp only [hf, if_true]
      rw [hy, hostAllowed_port y p hp]
      simp
    · simp only [hf, if_false]
      cases hsf : setFragment url (Cut path [ch '#']).2.1 with
      | error e => rfl
      | ok v =>
        simp only
        rw [setFragment_Host _ _ _ hsf, hy, hostAllowed_port y p hp]
        simp

/-- C10: the host that `isAllowedDomain` compares includes the port: for every host `d`
(in particular an allow-listed domain or a subdomain of one; `d` holds none of `/`,
`?`, `#`, `@`), every decimal port `p` and every path (empty or starting with `/`),
`isAllowedDomain ("https://" + d + ":" + p + path)` is false.  So
`https://i.pinimg.com:443/x.jpg` is rejected although `https://i.pinimg.com/x.jpg` is
accepted; the comparison is also case-sensitive. -/
theorem isAllowedDomain_port (d p path : Str)
    (hd : ∀ b ∈ d, b ≠ ch '/' ∧ b ≠ ch '?' ∧ b ≠ ch '#' ∧ b ≠ ch '@')
    (hp : ∀ b ∈ p, ch '0' ≤ b ∧ b ≤ ch '9')
    (hpath : path = [] ∨ ∃ t, path = ch '/' :: t) :
    isAllowedDomain (lit "https://" ++ d ++ lit ":" ++ p ++ path) = false ∧
      isAllowedDomain (lit "https://i.pinimg.com:443/x.jpg") = false ∧
      isAllowedDomain (lit "https://i.pinimg.com/x.jpg") = true ∧
      isAllowedDomain (lit "https://I.PINIMG.COM/x.jpg") = false :=
  ⟨isAllowedDomain_port_general d p path hd hp hpath, by decide!, by decide!, by decide!⟩

theorem isAllowedDomain_port_witness :
    isAllowedDomain (lit "https://" ++ lit "sub.pinimg.com" ++ lit ":" ++ lit "8080" ++
        lit "/y?z=1#w") = false ∧
      isAllowedDomain (lit "https://i.pinimg.com:443/x.jpg") = false ∧
      isAllowedDomain (lit "https://i.pinimg.com/x.jpg") = true ∧
      isAllowedDomain (lit "https://I.PINIMG.COM/x.jpg") = false :=
  isAllowedDomain_port (lit "sub.pinimg.com") (lit "8080") (lit "/y?z=1#w") (by decide!)
    (by decide!) (Or.inr ⟨lit "y?z=1#w", rfl⟩)


/-! ## JSON strings: encoding and decoding are inverse on valid UTF-8 -/

theorem DecodeRuneInString_take (s : Str) :
    DecodeRuneInString (s.take 4) = DecodeRuneInString s := by
  rcases s with _ | ⟨a, _ | ⟨b, _ | ⟨c, _ | ⟨d, rest⟩⟩⟩⟩ <;>
    simp only [List.take, DecodeRuneInString, List.length_cons, List.length_nil]
  split
  · rfl
  · split
    · rfl
    · have h1 : ¬ (rest.length + 1 + 1 + 1 + 1 <
          if a.val < 224 then 2 else if a.val < 240 then 3 else 4) := by
        split <;> [skip; split] <;> omega
      have h2 : ¬ (0 + 1 + 1 + 1 + 1 <
          if a.val < 224 then 2 else if a.val < 240 then 3 else 4) := by
        split <;> [skip; split] <;> omega
      simp only [h1, h2, if_false]

theorem encodeRune_two (a b : Byte) (ha : 0xC2 ≤ a.val) (ha2 : a.val < 0xE0)
    (hb : 0x80 ≤ b.val) (hb2 : b.val ≤ 0xBF) :
    encodeRune (a.val % 32 * 64 + b.val % 64) = [a, b] := by
  have h1 : ¬ (a.val % 32 * 64 + b.val % 64 < 0x80) := by omega
  have h2 : a.val % 32 * 64 + b.val % 64 < 0x800 := by omega
  simp only [encodeRune, h1, h2, if_false, if_true, List.cons.injEq, and_true]
  constructor <;> apply Fin.ext <;> simp only [Fin.ofNat] <;> omega

theorem encodeRune_three (a b c : Byte) (ha : 0xE0 ≤ a.val) (ha2 : a.val < 0xF0)
    (hlo : (if a.val = 0xE0 then 0xA0 else 0x80) ≤ b.val)
    (hhi : b.val ≤ (if a.val = 0xED then 0x9F else 0xBF))
    (hc : 0x80 ≤ c.val) (hc2 : c.val ≤ 0xBF) :
    encodeRune (a.val % 16 * 4096 + b.val % 64 * 64 + c.val % 64) = [a, b, c] := by
  have h1 : ¬ (a.val % 16 * 4096 + b.val % 64 * 64 + c.val % 64 < 0x80) := by
    split at hlo <;> split at hhi <;> omega
  have h2 : ¬ (a.val % 16 * 4096 + b.val % 64 * 64 + c.val % 64 < 0x800) := by
    split at hlo <;> split at hhi <;> omega
  have h3 : ¬ (0x10FFFF < a.val % 16 * 4096 + b.val % 64 * 64 + c.val % 64 ∨
      (0xD800 ≤ a.val % 16 * 4096 + b.val % 64 * 64 + c.val % 64 ∧
        a.val % 16 * 4096 + b.val % 64 * 64 + c.val % 64 ≤ 0xDFFF)) := by
    split at hlo <;> split at hhi <;> omega
  have h4 : a.val % 16 * 4096 + b.val % 64 * 64 + c.val % 64 < 0x10000 := by omega
  simp only [encodeRune, h1, h2, h3, h4, if_false, if_true, List.cons.injEq, and_true]
  refine ⟨?_, ?_, ?_⟩ <;> apply Fin.ext <;> simp only [Fin.ofNat] <;>
    split at hlo <;> split at hhi <;> omega

theorem encodeRune_four (a b c d : Byte) (ha : 0xF0 ≤ a.val) (ha2 : a.val ≤ 0xF4)
    (hlo : (if a.val = 0xF0 then 0x90 else 0x80) ≤ b.val)
    (hhi : b.val ≤ (if a.val = 0xF4 then 0x8F else 0xBF))
    (hc : 0x80 ≤ c.val) (hc2 : c.val ≤ 0xBF) (hd : 0x80 ≤ d.val) (hd2 : d.val ≤ 0xBF) :
    encodeRune (a.val % 8 * 262144 + b.val % 64 * 4096 + c.val % 64 * 64 + d.val % 64) =
      [a, b, c, d] := by
  have h1 : ¬ (a.val % 8 * 262144 + b.val % 64 * 4096 + c.val % 64 * 64 + d.val % 64 < 0x80) := by
    split at hlo <;> split at hhi <;> omega
  have h2 : ¬ (a.val % 8 * 262144 + b.val % 64 * 4096 + c.val % 64 * 64 + d.val % 64 < 0x800) := by
    split at hlo <;> split at hhi <;> omega
  have h3 : ¬ (0x10FFFF < a.val % 8 * 262144 + b.val % 64 * 4096 + c.val % 64 * 64 + d.val % 64 ∨
      (0xD800 ≤ a.val % 8 * 262144 + b.val % 64 * 4096 + c.val % 64 * 64 + d.val % 64 ∧
        a.val % 8 * 262144 + b.val % 64 * 4096 + c.val % 64 * 64 + d.val % 64 ≤ 0xDFFF)) := by
    split at hlo <;> split at hhi <;> omega
  have h4 : ¬ (a.val % 8 * 262144 + b.val % 64 * 4096 + c.val % 64 * 64 + d.val % 64 < 0x10000) := by
    split at hlo <;> split at hhi <;> omega
  simp only [encodeRune, h1, h2, h3, h4, if_false, List.cons.injEq, and_true]
  refine ⟨?_, ?_, ?_, ?_⟩ <;> apply Fin.ext <;> simp only [Fin.ofNat] <;>
    split at hlo <;> split at hhi <;> omega


theorem DecodeRuneInString_two (a b : Byte) (X : Str) (h : IsRune2 a b) :
    DecodeRuneInString (a :: b :: X) = (a.val % 32 * 64 + b.val % 64, 2) := by
  obtain ⟨h1, h2, h3, h4⟩ := h
  have e1 : ¬ a.val < 0x80 := by omega
  have e2 : ¬ (a.val < 0xC2 ∨ 0xF4 < a.val) := by omega
  have e4 : ¬ a.val = 0xE0 := by omega
  have e5 : ¬ a.val = 0xF0 := by omega
  have e6 : ¬ a.val = 0xED := by omega
  have e7 : ¬ a.val = 0xF4 := by omega
  have e8 : ¬ (b.val < 0x80 ∨ 0xBF < b.val) := by omega
  have e9 : ¬ (X.length + 1 + 1 < 2) := by omega
  simp only [DecodeRuneInString, e1, e2, h2, e4, e5, e6, e7, e8, e9, if_false, if_true,
    List.length_cons, Nat.le_refl]

theorem DecodeRuneInString_three (a b c : Byte) (X : Str) (h : IsRune3 a b c) :
    DecodeRuneInString (a :: b :: c :: X) =
      (a.val % 16 * 4096 + b.val % 64 * 64 + c.val % 64, 3) := by
  obtain ⟨h1, h2, h3, h4, h5, h6⟩ := h
  have e1 : ¬ a.val < 0x80 := by omega
  have e2 : ¬ (a.val < 0xC2 ∨ 0xF4 < a.val) := by omega
  have e3 : ¬ a.val < 0xE0 := by omega
  have e5 : ¬ a.val = 0xF0 := by omega
  have e7 : ¬ a.val = 0xF4 := by omega
  have e8 : ¬ (c.val < 0x80 ∨ 0xBF < c.val) := by omega
  have e9 : ¬ (X.length + 1 + 1 + 1 < 3) := by omega
  have e10 : ¬ ((3 : Nat) ≤ 2) := by omega
  have e11 : ¬ (b.val < (if a.val = 0xE0 then 0xA0 else 0x80) ∨
      (if a.val = 0xED then 0x9F else 0xBF) < b.val) := by omega
  simp only [DecodeRuneInString, e1, e2, e3, h2, e5, e7, e8, e9, e10, e11, if_false, if_true,
    List.length_cons, Nat.le_refl]

theorem DecodeRuneInString_four (a b c d : Byte) (X : Str) (h : IsRune4 a b c d) :
    DecodeRuneInString (a :: b :: c :: d :: X) =
      (a.val % 8 * 262144 + b.val % 64 * 4096 + c.val % 64 * 64 + d.val % 64, 4) := by
  obtain ⟨h1, h2, h3, h4, h5, h6, h7, h8⟩ := h
  have e1 : ¬ a.val < 0x80 := by omega
  have e2 : ¬ (a.val < 0xC2 ∨ 0xF4 < a.val) := by omega
  have e3 : ¬ a.val < 0xE0 := by omega
  have e3b : ¬ a.val < 0xF0 := by omega
  have e4 : ¬ a.val = 0xE0 := by omega
  have e6 : ¬ a.val = 0xED := by omega
  have e8 : ¬ (c.val < 0x80 ∨ 0xBF < c.val) := by omega
  have e8b : ¬ (d.val < 0x80 ∨ 0xBF < d.val) := by omega
  have e9 : ¬ (X.length + 1 + 1 + 1 + 1 < 4) := by omega
  have e10 : ¬ ((4 : Nat) ≤ 2) := by omega
  have e10b : ¬ ((4 : Nat) ≤ 3) := by omega
  have e11 : ¬ (b.val < (if a.val = 0xF0 then 0x90 else 0x80) ∨
      (if a.val = 0xF4 then 0x8F else 0xBF) < b.val) := by omega
  simp only [DecodeRuneInString, e1, e2, e3, e3b, e4, e6, e8, e8b, e9, e10, e10b, e11,
    if_false, if_true, List.length_cons, Nat.le_refl]

theorem DecodeRuneInString_cases (s0 : Byte) (rest : Str) (h0 : ¬ s0.val < 0x80)
    (hk : (DecodeRuneInString (s0 :: rest)).2 ≠ 1) :
    (∃ s1 t, rest = s1 :: t ∧ IsRune2 s0 s1) ∨
      (∃ s1 s2 t, rest = s1 :: s2 :: t ∧ IsRune3 s0 s1 s2) ∨
      ∃ s1 s2 s3 t, rest = s1 :: s2 :: s3 :: t ∧ IsRune4 s0 s1 s2 s3 := by
  by_cases hr : s0.val < 0xC2 ∨ 0xF4 < s0.val
  · simp [DecodeRuneInString, h0, hr] at hk
  · rcases rest with _ | ⟨s1, rest1⟩
    · exfalso
      apply hk
      simp only [DecodeRuneInString, h0, hr, if_false, List.length_nil]
      split_ifs <;> rfl
    · by_cases h1 : s1.val < (if s0.val = 0xE0 then 0xA0 else if s0.val = 0xF0 then 0x90 else 0x80) ∨
          (if s0.val = 0xED then 0x9F else if s0.val = 0xF4 then 0x8F else 0xBF) < s1.val
      · exfalso
        apply hk
        simp only [DecodeRuneInString, h0, hr, h1, if_false, if_true]
        split_ifs <;> rfl
      · by_cases h2 : s0.val < 0xE0
        · left
          refine ⟨s1, rest1, rfl, ?_⟩
          unfold IsRune2
          split_ifs at h1 <;> omega
        · rcases rest1 with _ | ⟨s2, rest2⟩
          · exfalso
            apply hk
            simp only [DecodeRuneInString, h0, hr, h1, h2, if_false, List.length_cons,
              List.length_nil]
            split_ifs <;> first | rfl | omega
          · by_cases h3 : s2.val < 0x80 ∨ 0xBF < s2.val
            · exfalso
              apply hk
              simp only [DecodeRuneInString, h0, hr, h1, h2, h3, if_false, if_true,
                List.length_cons]
              split_ifs <;> first | rfl | omega
            · by_cases h4 : s0.val < 0xF0
              · right; left
                refine ⟨s1, s2, rest2, rfl, ?_⟩
                unfold IsRune3
                split_ifs at h1 ⊢ <;> omega
              · rcases rest2 with _ | ⟨s3, rest3⟩
                · exfalso
                  apply hk
                  simp only [DecodeRuneInString, h0, hr, h1, h2, h3, h4, if_false,
                    List.length_cons, List.length_nil]
                  split_ifs <;> first | rfl | omega
                · by_cases h5 : s3.val < 0x80 ∨ 0xBF < s3.val
                  · exfalso
                    apply hk
                    simp only [DecodeRuneInString, h0, hr, h1, h2, h3, h4, h5, if_false,
                      if_true, List.length_cons]
                    split_ifs <;> first | rfl | omega
                  · right; right
                    refine ⟨s1, s2, s3, rest3, rfl, ?_⟩
                    unfold IsRune4
                    split_ifs at h1 ⊢ <;> omega


theorem appendASCII_cases : ∀ b : Byte, b.val < 0x80 →
    (appendASCII b = [b] ∧ b ≠ ch '\\' ∧ ¬ (b = ch '"' ∨ b < ch ' ')) ∨
    (appendASCII b = [ch '\\', b] ∧ (b = ch '"' ∨ b = ch '\\')) ∨
    (appendASCII b = [ch '\\', ch 'b'] ∧ b = 0x08) ∨
    (appendASCII b = [ch '\\', ch 'f'] ∧ b = 0x0C) ∨
    (appendASCII b = [ch '\\', ch 'n'] ∧ b = 0x0A) ∨
    (appendASCII b = [ch '\\', ch 'r'] ∧ b = 0x0D) ∨
    (appendASCII b = [ch '\\', ch 't'] ∧ b = 0x09) ∨
    (appendASCII b =
        [ch '\\', ch 'u', ch '0', ch '0', hex (b.val / 16), hex (b.val % 16)] ∧
      ishex (hex (b.val / 16)) = true ∧ ishex (hex (b.val % 16)) = true ∧
      (unhex (hex (b.val / 16))).val * 16 + (unhex (hex (b.val % 16))).val = b.val) := by
  decide!

theorem encodeRune_ascii (b : Byte) (h : b.val < 0x80) : encodeRune b.val = [b] := by
  simp only [encodeRune, h, if_true, List.cons.injEq, and_true]
  apply Fin.ext
  simp only [Fin.ofNat]
  omega


theorem unquoteLoop_nil (m : Nat) : unquoteLoop m [] = some [] := by
  cases m <;> rfl

theorem unquoteStep_appendASCII (b : Byte) (h : b.val < 0x80) (Y : Str) :
    unquoteStep (appendASCII b ++ Y) = some ([b], (appendASCII b).length) := by
  rcases appendASCII_cases b h with ⟨e, h1, h2⟩ | ⟨e, h1 | h1⟩ | ⟨e, h1⟩ | ⟨e, h1⟩ | ⟨e, h1⟩ |
    ⟨e, h1⟩ | ⟨e, h1⟩ | ⟨e, h1, h2, h3⟩
  · rw [e, List.singleton_append]
    simp only [unquoteStep, h1, h2, h, if_false, if_true, List.length_singleton]
  · rw [e, h1]; rfl
  · rw [e, h1]; rfl
  · rw [e, h1]; rfl
  · rw [e, h1]; rfl
  · rw [e, h1]; rfl
  · rw [e, h1]; rfl
  · rw [e, h1]; rfl
  · rw [e]
    have hg : getu4 (ch '\\' :: ch 'u' :: ch '0' :: ch '0' :: hex (b.val / 16) ::
        hex (b.val % 16) :: Y) = some b.val := by
      have e0 : ishex (ch '0') = true := by decide
      have e1 : ¬ (ch '\\' ≠ ch '\\' ∨ ch 'u' ≠ ch 'u') := by decide
      have e2 : (unhex (ch '0')).val = 0 := by decide
      simp only [getu4, e0, e1, e2, h1, h2, Bool.and_self, if_true, if_false, Nat.zero_mul,
        Nat.zero_add, h3]
    have hs : IsSurrogate b.val = false := by
      simp only [IsSurrogate, decide_eq_false_iff_not]
      omega
    show unquoteStep (ch '\\' :: ch 'u' :: ch '0' :: ch '0' :: hex (b.val / 16) ::
        hex (b.val % 16) :: Y) = _
    have d1 : ¬ (ch 'u' = ch '"' ∨ ch 'u' = ch '\\' ∨ ch 'u' = ch '/' ∨ ch 'u' = ch '\'') := by
      decide
    have d2 : ¬ ch 'u' = ch 'b' := by decide
    have d3 : ¬ ch 'u' = ch 'f' := by decide
    have d4 : ¬ ch 'u' = ch 'n' := by decide
    have d5 : ¬ ch 'u' = ch 'r' := by decide
    have d6 : ¬ ch 'u' = ch 't' := by decide
    simp only [unquoteStep, if_true, d1, d2, d3, d4, d5, d6, if_false, hg, hs,
      Bool.false_eq_true, encodeRune_ascii b h, List.length_cons, List.length_nil]

theorem appendASCII_ne_nil : ∀ b : Byte, appendASCII b ≠ [] := by
  decide!

theorem unquoteLoop_step (chunk out Y : Str) (m : Nat) (hne : chunk ≠ [])
    (hstep : unquoteStep (chunk ++ Y) = some (out, chunk.length)) :
    unquoteLoop (m + 1) (chunk ++ Y) = (unquoteLoop m Y).map (out ++ ·) := by
  have he : (chunk ++ Y).isEmpty = false := by
    cases chunk with
    | nil => exact absurd rfl hne
    | cons a t => rfl
  rw [unquoteLoop]
  simp only [he, Bool.false_eq_true, if_false, hstep, List.drop_left]

theorem unquoteStep_u202 (r : Nat) (hr : r = 0x2028 ∨ r = 0x2029) (Y : Str) :
    unquoteStep (lit "\\u202" ++ [hex (r % 16)] ++ Y) = some (encodeRune r, 6) := by
  rcases hr with rfl | rfl <;> rfl

theorem unquoteStep_rune (b : Byte) (rest Y : Str) (hb : ¬ b.val < 0x80)
    (hk : (DecodeRuneInString (b :: rest)).2 ≠ 1) :
    unquoteStep ((b :: rest).take (DecodeRuneInString (b :: rest)).2 ++ Y) =
        some ((b :: rest).take (DecodeRuneInString (b :: rest)).2,
          (DecodeRuneInString (b :: rest)).2) ∧
      encodeRune (DecodeRuneInString (b :: rest)).1 =
        (b :: rest).take (DecodeRuneInString (b :: rest)).2 ∧
      ((b :: rest).take (DecodeRuneInString (b :: rest)).2).length =
        (DecodeRuneInString (b :: rest)).2 ∧
      1 ≤ (DecodeRuneInString (b :: rest)).2 := by
  have h1 : b ≠ ch '\\' := by
    intro h
    rw [h] at hb
    revert hb
    decide
  have h2 : ¬ (b = ch '"' ∨ b < ch ' ') := by
    intro h
    apply hb
    rcases h with h | h
    · rw [h]; decide
    · have : b.val < (ch ' ').val := h
      have h32 : (ch ' ').val = 32 := by decide
      omega
  rcases DecodeRuneInString_cases b rest hb hk with ⟨s1, t, rfl, hr⟩ | ⟨s1, s2, t, rfl, hr⟩ |
    ⟨s1, s2, s3, t, rfl, hr⟩
  · rw [DecodeRuneInString_two b s1 t hr]
    have e := encodeRune_two b s1 hr.1 hr.2.1 hr.2.2.1 hr.2.2.2
    refine ⟨?_, e, rfl, by omega⟩
    simp only [List.take, List.cons_append, List.nil_append, unquoteStep, h1, h2, hb, if_false,
      DecodeRuneInString_two b s1 Y hr, e]
  · rw [DecodeRuneInString_three b s1 s2 t hr]
    have e := encodeRune_three b s1 s2 hr.1 hr.2.1 hr.2.2.1 hr.2.2.2.1 hr.2.2.2.2.1 hr.2.2.2.2.2
    refine ⟨?_, e, rfl, by omega⟩
    simp only [List.take, List.cons_append, List.nil_append, unquoteStep, h1, h2, hb, if_false,
      DecodeRuneInString_three b s1 s2 Y hr, e]
  · rw [DecodeRuneInString_four b s1 s2 s3 t hr]
    have e := encodeRune_four b s1 s2 s3 hr.1 hr.2.1 hr.2.2.1 hr.2.2.2.1 hr.2.2.2.2.1
      hr.2.2.2.2.2.1 hr.2.2.2.2.2.2.1 hr.2.2.2.2.2.2.2
    refine ⟨?_, e, rfl, by omega⟩
    simp only [List.take, List.cons_append, List.nil_append, unquoteStep, h1, h2, hb, if_false,
      DecodeRuneInString_four b s1 s2 s3 Y hr, e]


theorem appendStringLoop_nil (n : Nat) : appendStringLoop n [] = [] := by
  cases n <;> rfl

theorem unquoteLoop_appendStringLoop : ∀ (n : Nat) (s : Str), s.length ≤ n →
    ValidStringLoop n s = true →
    ∀ m, (appendStringLoop n s).length ≤ m →
      unquoteLoop m (appendStringLoop n s) = some s := by
  intro n
  induction n with
  | zero =>
    intro s hs _ m _
    have : s = [] := List.length_eq_zero.1 (Nat.le_zero.1 hs)
    subst this
    rw [appendStringLoop_nil, unquoteLoop_nil]
  | succ n ih =>
    intro s hs hv m hm
    match s, hs, hv, hm with
    | [], _, _, _ => rw [appendStringLoop_nil, unquoteLoop_nil]
    | b :: rest, hs, hv, hm =>
      simp only [List.length_cons, Nat.add_le_add_iff_right] at hs
      by_cases hb : b.val < 0x80
      · simp only [ValidStringLoop, hb, if_true] at hv
        simp only [appendStringLoop, hb, if_true] at hm ⊢
        have hpos : 1 ≤ (appendASCII b).length :=
          List.length_pos.2 (appendASCII_ne_nil b)
        rw [List.length_append] at hm
        obtain ⟨m2, rfl⟩ : ∃ m2, m = m2 + 1 := ⟨m - 1, by omega⟩
        rw [unquoteLoop_step _ [b] _ m2 (appendASCII_ne_nil b)
          (unquoteStep_appendASCII b hb _), ih rest hs hv m2 (by omega)]
        rfl
      · simp only [ValidStringLoop, hb, if_false] at hv
        have hk : (DecodeRuneInString (b :: rest)).2 ≠ 1 := by
          intro h1
          simp [h1] at hv
        simp only [hk, if_false] at hv
        obtain ⟨h1, h2, h3, h4⟩ := unquoteStep_rune b rest
          (appendStringLoop n ((b :: rest).drop (DecodeRuneInString (b :: rest)).2)) hb hk
        have hlen : ((b :: rest).drop (DecodeRuneInString (b :: rest)).2).length ≤ n := by
          simp only [List.length_drop, List.length_cons]
          omega
        have hrec := ih _ hlen hv
        have hcat : (b :: rest).take (DecodeRuneInString (b :: rest)).2 ++
            (b :: rest).drop (DecodeRuneInString (b :: rest)).2 = b :: rest :=
          List.take_append_drop _ _
        have hne : (b :: rest).take (DecodeRuneInString (b :: rest)).2 ≠ [] := by
          intro h0
          rw [h0] at h3
          simp only [List.length_nil] at h3
          omega
        simp only [appendStringLoop, hb, if_false, DecodeRuneInString_take, hk, and_false]
          at hm ⊢
        by_cases hu : (DecodeRuneInString (b :: rest)).1 = 0x2028 ∨
            (DecodeRuneInString (b :: rest)).1 = 0x2029
        · simp only [hu, if_true] at hm ⊢
          simp only [List.length_append] at hm
          have h6 : (lit "\\u202" ++ [hex ((DecodeRuneInString (b :: rest)).1 % 16)]).length = 6 :=
            rfl
          have h5 : (lit "\\u202").length = 5 := rfl
          simp only [h5, List.length_singleton] at hm
          obtain ⟨m2, rfl⟩ : ∃ m2, m = m2 + 1 := ⟨m - 1, by omega⟩
          rw [unquoteLoop_step _ (encodeRune (DecodeRuneInString (b :: rest)).1) _ m2
            (by intro h0; rw [h0] at h6; cases h6)
            (by rw [h6]; exact unquoteStep_u202 _ hu _),
            hrec m2 (by omega), h2]
          simp only [Option.map_some', hcat]
        · simp only [hu, if_false] at hm ⊢
          simp only [List.length_append] at hm
          obtain ⟨m2, rfl⟩ : ∃ m2, m = m2 + 1 := ⟨m - 1, by omega⟩
          rw [unquoteLoop_step _ ((b :: rest).take (DecodeRuneInString (b :: rest)).2) _ m2 hne
            (by rw [h3]; exact h1), hrec m2 (by omega)]
          simp only [Option.map_some', hcat]

theorem unquote_appendString (s : Str) (h : ValidString s = true) :
    unquote (appendString s) = some s := by
  have e : appendString s = ch '"' :: (appendStringLoop s.length s ++ [ch '"']) := rfl
  rw [e]
  simp only [unquote, List.getLast?_concat, and_self, if_true, List.dropLast_concat,
    List.length_append, List.length_singleton, Nat.add_sub_cancel]
  exact unquoteLoop_appendStringLoop s.length s (Nat.le_refl _) h _ (Nat.le_refl _)

/-! ## JSON values: decoding what was encoded -/

theorem unquoteStep_quote (X : Str) : unquoteStep (ch '"' :: X) = none := by
  have h1 : ¬ ch '"' = ch '\\' := by decide
  simp only [unquoteStep, h1, if_false, true_or, if_true]

theorem parseStringBody_step (chunk out Y : Str) (m : Nat) (hne : chunk ≠ [])
    (hstep : unquoteStep (chunk ++ Y) = some (out, chunk.length)) :
    parseStringBody (m + 1) (chunk ++ Y) =
      (parseStringBody m Y).map fun r => (out ++ r.1, r.2) := by
  cases chunk with
  | nil => exact absurd rfl hne
  | cons c t =>
    have hc : c ≠ ch '"' := by
      rintro rfl
      rw [List.cons_append, unquoteStep_quote] at hstep
      cases hstep
    rw [List.cons_append] at hstep ⊢
    simp only [parseStringBody, hc, if_false, hstep]
    rw [← List.cons_append, List.drop_left]

theorem parseStringBody_appendStringLoop : ∀ (n : Nat) (s : Str), s.length ≤ n →
    ValidStringLoop n s = true →
    ∀ (m : Nat) (rest : Str), (appendStringLoop n s).length < m →
      parseStringBody m (appendStringLoop n s ++ ch '"' :: rest) = some (s, rest) := by
  intro n
  induction n with
  | zero =>
    intro s hs _ m rest hm
    have : s = [] := List.length_eq_zero.1 (Nat.le_zero.1 hs)
    subst this
    obtain ⟨m2, rfl⟩ : ∃ m2, m = m2 + 1 := ⟨m - 1, by omega⟩
    simp [appendStringLoop_nil, parseStringBody]
  | succ n ih =>
    intro s hs hv m rest hm
    match s, hs, hv, hm with
    | [], _, _, hm =>
      obtain ⟨m2, rfl⟩ : ∃ m2, m = m2 + 1 := ⟨m - 1, by omega⟩
      simp [appendStringLoop_nil, parseStringBody]
    | b :: tl, hs, hv, hm =>
      simp only [List.length_cons, Nat.add_le_add_iff_right] at hs
      by_cases hb : b.val < 0x80
      · simp only [ValidStringLoop, hb, if_true] at hv
        simp only [appendStringLoop, hb, if_true] at hm ⊢
        have hpos : 1 ≤ (appendASCII b).length :=
          List.length_pos.2 (appendASCII_ne_nil b)
        rw [List.length_append] at hm
        obtain ⟨m2, rfl⟩ : ∃ m2, m = m2 + 1 := ⟨m - 1, by omega⟩
        rw [List.append_assoc, parseStringBody_step _ [b] _ m2 (appendASCII_ne_nil b)
          (unquoteStep_appendASCII b hb _), ih tl hs hv m2 rest (by omega)]
        rfl
      · simp only [ValidStringLoop, hb, if_false] at hv
        have hk : (DecodeRuneInString (b :: tl)).2 ≠ 1 := by
          intro h1
          simp [h1] at hv
        simp only [hk, if_false] at hv
        obtain ⟨h1, h2, h3, h4⟩ := unquoteStep_rune b tl
          (appendStringLoop n ((b :: tl).drop (DecodeRuneInString (b :: tl)).2) ++
            ch '"' :: rest) hb hk
        have hlen : ((b :: tl).drop (DecodeRuneInString (b :: tl)).2).length ≤ n := by
          simp only [List.length_drop, List.length_cons]
          omega
        have hrec := ih _ hlen hv
        have hcat : (b :: tl).take (DecodeRuneInString (b :: tl)).2 ++
            (b :: tl).drop (DecodeRuneInString (b :: tl)).2 = b :: tl :=
          List.take_append_drop _ _
        have hne : (b :: tl).take (DecodeRuneInString (b :: tl)).2 ≠ [] := by
          intro h0
          rw [h0] at h3
          simp only [List.length_nil] at h3
          omega
        simp only [appendStringLoop, hb, if_false, DecodeRuneInString_take, hk, and_false]
          at hm ⊢
        by_cases hu : (DecodeRuneInString (b :: tl)).1 = 0x2028 ∨
            (DecodeRuneInString (b :: tl)).1 = 0x2029
        · simp only [hu, if_true] at hm ⊢
          simp only [List.length_append] at hm
          have h6 : (lit "\\u202" ++ [hex ((DecodeRuneInString (b :: tl)).1 % 16)]).length = 6 :=
            rfl
          have h5 : (lit "\\u202").length = 5 := rfl
          simp only [h5, List.length_singleton] at hm
          obtain ⟨m2, rfl⟩ : ∃ m2, m = m2 + 1 := ⟨m - 1, by omega⟩
          rw [List.append_assoc,
            parseStringBody_step _ (encodeRune (DecodeRuneInString (b :: tl)).1) _ m2
              (by intro h0; rw [h0] at h6; cases h6)
              (by rw [h6]; exact unquoteStep_u202 _ hu _),
            hrec m2 rest (by omega), h2]
          simp only [Option.map_some', hcat]
        · simp only [hu, if_false] at hm ⊢
          simp only [List.length_append] at hm
          obtain ⟨m2, rfl⟩ : ∃ m2, m = m2 + 1 := ⟨m - 1, by omega⟩
          rw [List.append_assoc,
            parseStringBody_step _ ((b :: tl).take (DecodeRuneInString (b :: tl)).2) _ m2 hne
              (by rw [h3]; exact h1), hrec m2 rest (by omega)]
          simp only [Option.map_some', hcat]

theorem appendString_append (s rest : Str) :
    appendString s ++ rest = ch '"' :: (appendStringLoop s.length s ++ ch '"' :: rest) := by
  simp [appendString, show lit "\"" = [ch '"'] from rfl]

theorem parseStringBody_appendString (s rest : Str) (h : ValidString s = true) (m : Nat)
    (hm : (appendStringLoop s.length s).length < m) :
    parseStringBody m (appendStringLoop s.length s ++ ch '"' :: rest) = some (s, rest) :=
  parseStringBody_appendStringLoop s.length s (Nat.le_refl _) h m rest hm

theorem skipSpace_quote (X : Str) : skipSpace (ch '"' :: X) = ch '"' :: X := rfl

theorem parseValue_string (n : Nat) (s rest : Str) (h : ValidString s = true) :
    parseValue (n + 1) (appendString s ++ rest) = some (.string s, rest) := by
  have hfuel : (appendStringLoop s.length s).length <
      (appendStringLoop s.length s ++ ch '"' :: rest).length + 1 := by
    simp only [List.length_append, List.length_cons]
    omega
  rw [appendString_append]
  simp only [parseValue, skipSpace_quote, if_true]
  rw [parseStringBody_appendString s rest h _ hfuel]
  rfl

theorem parseValue_array_one (n : Nat) (t rest : Str) (h : ValidString t = true) :
    parseValue (n + 3) (ch '[' :: (appendString t ++ ch ']' :: rest)) =
      some (.array [.string t], rest) := by
  have h1 : skipSpace (ch '[' :: (appendString t ++ ch ']' :: rest)) =
      ch '[' :: (appendString t ++ ch ']' :: rest) := rfl
  have h2 : skipSpace (appendString t ++ ch ']' :: rest) =
      ch '"' :: (appendStringLoop t.length t ++ ch '"' :: ch ']' :: rest) := by
    rw [appendString_append]; rfl
  have h3 : ¬ ch '[' = ch '"' := by decide
  have h4 : ¬ ch '"' = ch ']' := by decide
  have h5 : skipSpace (ch ']' :: rest) = ch ']' :: rest := rfl
  have h6 : ¬ ch ']' = ch ',' := by decide
  rw [parseValue]
  simp only [h1, h2, h3, h4, if_false, if_true]
  rw [parseItems, parseValue_string n t _ h]
  simp only [h5, h6, if_false, if_true, Option.map_some']

theorem parseMembers_key (n : Nat) (key rest : Str) (h : ValidString key = true) :
    parseMembers (n + 1) (appendString key ++ ch ':' :: rest) =
      match parseValue n rest with
      | none => none
      | some (v, rest3) =>
        match skipSpace rest3 with
        | [] => none
        | e :: rest4 =>
          if e = ch ',' then (parseMembers n rest4).map fun r => ((key, v) :: r.1, r.2)
          else if e = ch '}' then some ([(key, v)], rest4)
          else none := by
  have h1 : skipSpace (appendString key ++ ch ':' :: rest) =
      ch '"' :: (appendStringLoop key.length key ++ ch '"' :: ch ':' :: rest) := by
    rw [appendString_append]; rfl
  have h2 : skipSpace (ch ':' :: rest) = ch ':' :: rest := rfl
  have hfuel : (appendStringLoop key.length key).length <
      (appendStringLoop key.length key ++ ch '"' :: ch ':' :: rest).length + 1 := by
    simp only [List.length_append, List.length_cons]
    omega
  rw [parseMembers]
  simp only [h1, ne_eq, not_true_eq_false, if_false]
  rw [parseStringBody_appendString key _ h _ hfuel]
  simp only [h2, not_true_eq_false, if_false]

theorem parseValue_object (n : Nat) (key rest : Str) :
    parseValue (n + 1) (ch '{' :: (appendString key ++ rest)) =
      (parseMembers n (appendString key ++ rest)).map fun r => (.object r.1, r.2) := by
  have h1 : skipSpace (ch '{' :: (appendString key ++ rest)) =
      ch '{' :: (appendString key ++ rest) := rfl
  have h2 : skipSpace (appendString key ++ rest) =
      ch '"' :: (appendStringLoop key.length key ++ ch '"' :: rest) := by
    rw [appendString_append]; rfl
  have h3 : ¬ ch '{' = ch '"' := by decide
  have h4 : ¬ ch '{' = ch '[' := by decide
  have h5 : ¬ ch '"' = ch '}' := by decide
  rw [parseValue]
  simp only [h1, h2, h3, h4, h5, if_false, if_true]

/-! ## The upstream request -/

theorem dataParamText_eq (query bookmark : Str) :
    dataParamText query bookmark =
      lit "\x7b\"options\":\x7b\"bookmarks\":[" ++ appendString bookmark ++ lit "],\"query\":" ++
        appendString query ++ lit "\x7d\x7d" := by
  have h1 : strLE (lit "query") (lit "bookmarks") = false := by decide
  have h2 : appendString (lit "options") = lit "\"options\"" := by decide
  have h3 : appendString (lit "bookmarks") = lit "\"bookmarks\"" := by decide
  have h4 : appendString (lit "query") = lit "\"query\"" := by decide
  simp only [dataParamText, encodeMap, encodeStringSlice, List.insertionSort,
    List.orderedInsert, h1, Bool.false_eq_true, if_false, List.map_cons, List.map_nil,
    List.intercalate, List.intersperse, List.flatten, h2, h3, h4, List.append_nil,
    List.append_assoc]
  rfl

theorem parseJSON_dataParamText (q t : Str) (hq : ValidString q = true)
    (ht : ValidString t = true) :
    parseJSON (dataParamText q t) =
      some (.object [(lit "options",
        .object [(lit "bookmarks", .array [.string t]), (lit "query", .string q)])]) := by
  have hshape : dataParamText q t =
      ch '{' :: (appendString (lit "options") ++ ch ':' :: ch '{' ::
        (appendString (lit "bookmarks") ++ ch ':' :: ch '[' ::
          (appendString t ++ ch ']' :: ch ',' ::
            (appendString (lit "query") ++ ch ':' :: (appendString q ++ [ch '}', ch '}']))))) := by
    have h2 : appendString (lit "options") = lit "\"options\"" := by decide
    have h3 : appendString (lit "bookmarks") = lit "\"bookmarks\"" := by decide
    have h4 : appendString (lit "query") = lit "\"query\"" := by decide
    rw [dataParamText_eq, h2, h3, h4]
    simp only [List.append_assoc]
    rfl
  have hlen : 2 * (dataParamText q t).length + 2 = (2 * (dataParamText q t).length - 6) + 8 := by
    rw [hshape]
    simp only [List.length_cons, List.length_append]
    omega
  have k1 : ValidString (lit "options") = true := by decide
  have k2 : ValidString (lit "bookmarks") = true := by decide
  have k3 : ValidString (lit "query") = true := by decide
  have s1 : ∀ X : Str, skipSpace (ch ',' :: X) = ch ',' :: X := fun _ => rfl
  have s2 : ∀ X : Str, skipSpace (ch '}' :: X) = ch '}' :: X := fun _ => rfl
  have d1 : ¬ ch '}' = ch ',' := by decide
  unfold parseJSON
  rw [hlen]
  generalize 2 * (dataParamText q t).length - 6 = n
  rw [hshape, parseValue_object, parseMembers_key _ _ _ k1, parseValue_object,
    parseMembers_key _ _ _ k2, parseValue_array_one _ _ _ ht]
  simp only [s1, if_true]
  rw [parseMembers_key _ _ _ k3, parseValue_string _ _ _ hq]
  simp only [s2, d1, if_false, if_true, Option.map_some']
  rfl

theorem searchHandler_calls (w : World) (c : Context) (req : Request) (hURL : w.URL ≠ [])
    (hreq : w.NewRequest (lit "GET")
      (finalURL (dataParamText (c.Query (lit "q")) (c.Query (lit "bookmark")))) = .ok req) :
    (searchHandler w c).2 = [setCSRF req (c.Query (lit "csrftoken"))] := by
  simp only [searchHandler, hURL, if_false, Marshal, hreq]
  split
  · rfl
  · split <;> rfl

/-- C8, as stated, fails: a query parameter can hold bytes that are not valid UTF-8
(`q=%FF` gives the one byte `0xFF`), and `json.Marshal` writes such a byte as
`\ufffd`; decoding the payload then gives U+FFFD (`EF BF BD`) as `options.query`, not
the query. -/
theorem dataParam_invalid_utf8 :
    Context.Query ⟨lit "q=%FF"⟩ (lit "q") = [0xFF] ∧
      Context.Query ⟨lit "q=%FF"⟩ (lit "bookmark") = [] ∧
      Marshal [0xFF] [] =
        .ok (lit "\x7b\"options\":\x7b\"bookmarks\":[\"\"],\"query\":\"\\ufffd\"\x7d\x7d") ∧
      unquote (appendString [0xFF]) = some [0xEF, 0xBF, 0xBD] ∧
      unquote (appendString [0xFF]) ≠ some [0xFF] ∧
      parseJSON (dataParamText [0xFF] []) =
        some (.object [(lit "options",
          .object [(lit "bookmarks", .array [.string []]),
            (lit "query", .string [0xEF, 0xBF, 0xBD])])]) :=
  ⟨by decide!, by decide!, by decide!, by decide!, by decide!, rfl⟩

/-- C8, amended: for every query `q` and pagination token `t` that are valid UTF-8 (the
empty token included), the payload is the JSON text
`{"options":{"bookmarks":[T],"query":Q}}` with `Q` and `T` the JSON strings of `q` and
`t`; it decodes to the object whose only key is `options`, with `options.bookmarks` the
one-element array `[t]` and `options.query` the string `q`.  The request URL is the
upstream endpoint followed by `?data=` and the query-escaped payload, and unescaping
the `data` parameter gives the payload back.  That URL is the one `searchHandler`
passes to `http.NewRequest`. -/
theorem searchHandler_payload (q t : Str) (hq : ValidString q = true)
    (ht : ValidString t = true) :
    Marshal q t =
        .ok (lit "\x7b\"options\":\x7b\"bookmarks\":[" ++ appendString t ++
          lit "],\"query\":" ++ appendString q ++ lit "\x7d\x7d") ∧
      parseJSON (dataParamText q t) =
        some (.object [(lit "options",
          .object [(lit "bookmarks", .array [.string t]), (lit "query", .string q)])]) ∧
      unquote (appendString q) = some q ∧
      unquote (appendString t) = some t ∧
      finalURL (dataParamText q t) =
        lit "https://www.pinterest.com/resource/BaseSearchResource/get/" ++ lit "?data=" ++
          QueryEscape (dataParamText q t) ∧
      QueryUnescape (QueryEscape (dataParamText q t)) = .ok (dataParamText q t) ∧
      URLQuery (lit "data=" ++ QueryEscape (dataParamText q t)) =
        [(lit "data", dataParamText q t)] ∧
      ∀ (w : World) (c : Context) (req : Request), w.URL ≠ [] →
        c.Query (lit "q") = q → c.Query (lit "bookmark") = t →
        w.NewRequest (lit "GET") (finalURL (dataParamText q t)) = .ok req →
        (searchHandler w c).2 = [setCSRF req (c.Query (lit "csrftoken"))] := by
  refine ⟨by rw [Marshal, dataParamText_eq], parseJSON_dataParamText q t hq ht,
    unquote_appendString q hq,
    unquote_appendString t ht, rfl, QueryUnescape_QueryEscape _, URLQuery_data _, ?_⟩
  intro w c req hURL hcq hct hreq
  exact searchHandler_calls w c req hURL (by rw [hcq, hct]; exact hreq)

theorem searchHandler_payload_witness :
    Marshal (lit "cat é") [] =
        .ok (lit "\x7b\"options\":\x7b\"bookmarks\":[" ++ appendString [] ++
          lit "],\"query\":" ++ appendString (lit "cat é") ++ lit "\x7d\x7d") ∧
      parseJSON (dataParamText (lit "cat é") []) =
        some (.object [(lit "options",
          .object [(lit "bookmarks", .array [.string []]),
            (lit "query", .string (lit "cat é"))])]) ∧
      unquote (appendString (lit "cat é")) = some (lit "cat é") ∧
      unquote (appendString []) = some [] ∧
      finalURL (dataParamText (lit "cat é") []) =
        lit "https://www.pinterest.com/resource/BaseSearchResource/get/" ++ lit "?data=" ++
          QueryEscape (dataParamText (lit "cat é") []) ∧
      QueryUnescape (QueryEscape (dataParamText (lit "cat é") [])) =
        .ok (dataParamText (lit "cat é") []) ∧
      URLQuery (lit "data=" ++ QueryEscape (dataParamText (lit "cat é") [])) =
        [(lit "data", dataParamText (lit "cat é") [])] ∧
      ∀ (w : World) (c : Context) (req : Request), w.URL ≠ [] →
        c.Query (lit "q") = lit "cat é" → c.Query (lit "bookmark") = [] →
        w.NewRequest (lit "GET") (finalURL (dataParamText (lit "cat é") [])) = .ok req →
        (searchHandler w c).2 = [setCSRF req (c.Query (lit "csrftoken"))] :=
  searchHandler_payload (lit "cat é") [] (by decide!) (by decide!)

end Librerest
